import Mathlib

/-!
Verification development for the in-memory file-system simulation engine
(`FileSystemSimulator` in `src/app/client-layout.tsx`).

Modelling conventions:
* Machine numbers are `Nat`; all timing quantities (`seekTime`, `transferTime`,
  `totalTime`, `timeSaved`) are represented in tenths of a millisecond so that the
  source's decimal constants (0.1 ms, 0.5 ms, 0.8 ms, 1 ms, 2 ms, 3 ms) become the
  integers 1, 5, 8, 10, 20, 30.  With this scaling every arithmetic operation the
  source performs on times is exact, and the source's
  `Math.round(totalSeek * 10) / 10` step in `calculateSeekTime` is the identity.
* The JavaScript `Map` (insertion ordered, unique keys) backing `this.files` is
  represented as an insertion-ordered association list `List (String × FileEntry)`.
* `Date.now()` timestamps and the randomly generated file ids are passed in as
  explicit parameters (`now`, `newId`).
* The ambient randomness of `Math.random()` is passed in explicitly: recovery
  takes an `oracle : Nat → Bool` giving the outcome of the k-th 70%-coin flip,
  and `simulateCrash` takes the shuffling function produced by its random-comparator
  sort.
* The simulator's `totalBlocks` field always equals `blocks.length` (it is set at
  construction and never modified), so the embedding uses `blocks.length` for it.
-/

namespace FileSys

/-- Status of one simulated disk block (`DiskBlock.status` in the source). -/
inductive BlockStatus where
  | free
  | used
  | corrupted
  | reserved
deriving DecidableEq

/-- One simulated disk block (`DiskBlock` in the source; `data` is the block label). -/
structure DiskBlock where
  id : Nat
  status : BlockStatus
  fileId : Option String
  data : String
deriving DecidableEq

/-- A file-table entry (`FileEntry` in the source).  `children` is `some` exactly
for entries created as directories (the source leaves the field `undefined` for
plain files). -/
structure FileEntry where
  id : String
  name : String
  size : Nat
  blocks : List Nat
  createdAt : Nat
  modifiedAt : Nat
  accessedAt : Nat
  isDirectory : Bool
  parentId : Option String
  children : Option (List String)
  permissions : String
  inode : Nat
deriving DecidableEq

/-- One access-log record (`AccessLog` in the source).  Times are in tenths of ms. -/
structure AccessLog where
  timestamp : Nat
  operation : String
  fileId : String
  fileName : String
  blocks : List Nat
  seekTime : Nat
  transferTime : Nat
  totalTime : Nat
  success : Bool
deriving DecidableEq

/-- The engine state (`FileSystemSimulator`'s mutable fields). -/
structure Simulator where
  blocks : List DiskBlock
  files : List (String × FileEntry)
  accessLog : List AccessLog
  blockSize : Nat
  nextInode : Nat
deriving DecidableEq

/-- Replace the element at an index by applying `f` (no-op when out of range);
models an in-place assignment `this.blocks[i] = ...`. -/
def updateAt : List α → Nat → (α → α) → List α
  | [], _, _ => []
  | a :: as, 0, f => f a :: as
  | a :: as, n + 1, f => a :: updateAt as n f

/-- `this.files.get(k)` on the insertion-ordered map. -/
def mapGet (files : List (String × FileEntry)) (k : String) : Option FileEntry :=
  (files.find? (fun p => p.1 == k)).map Prod.snd

/-- `this.files.set(k, v)`: replace in place if the key exists, else append. -/
def mapSet (files : List (String × FileEntry)) (k : String) (v : FileEntry) :
    List (String × FileEntry) :=
  if files.any (fun p => p.1 == k) then
    files.map (fun p => if p.1 == k then (k, v) else p)
  else files ++ [(k, v)]

/-- In-place mutation of the entry stored under key `k` (object mutation through
`this.files.get(k)` in the source). -/
def mapUpdate (files : List (String × FileEntry)) (k : String) (f : FileEntry → FileEntry) :
    List (String × FileEntry) :=
  files.map (fun p => if p.1 == k then (p.1, f p.2) else p)

/-- `this.files.delete(k)`. -/
def mapDelete (files : List (String × FileEntry)) (k : String) : List (String × FileEntry) :=
  files.filter (fun p => !(p.1 == k))

/-- `this.blocks[i].status === "free"` (false when out of range). -/
def isFree (s : Simulator) (i : Nat) : Bool :=
  match s.blocks[i]? with
  | some b => b.status == .free
  | none => false

/-- `getBitmap()`. -/
def getBitmap (s : Simulator) : List Bool :=
  s.blocks.map (fun b => b.status == .free)

/-- `getFreeBlocksLinkedList()`: indices of all free blocks, in ascending order. -/
def getFreeBlocksLinkedList (s : Simulator) : List Nat :=
  (List.range s.blocks.length).filter (isFree s)

/-- Loop body of `getFreeBlocksGrouping()`: scan the index list, collecting free
indices into the current group, closing a group at size 8 or at a non-free block. -/
def groupAux (p : Nat → Bool) : List Nat → List Nat → List (List Nat)
  | [], cur => if cur.isEmpty then [] else [cur]
  | i :: rest, cur =>
    if p i then
      if (cur ++ [i]).length == 8 then (cur ++ [i]) :: groupAux p rest []
      else groupAux p rest (cur ++ [i])
    else
      if cur.isEmpty then groupAux p rest []
      else cur :: groupAux p rest []

/-- `getFreeBlocksGrouping()`. -/
def getFreeBlocksGrouping (s : Simulator) : List (List Nat) :=
  groupAux (isFree s) (List.range s.blocks.length) []

/-- Loop body of `getFreeBlocksCounting()`: scan the (consecutive) index list,
maintaining the currently open run `(start, count)`; the source's inner `while`
that consumes a maximal free run corresponds to extending the open run while the
scan stays on free indices. -/
def countAux (p : Nat → Bool) : List Nat → Option (Nat × Nat) → List (Nat × Nat)
  | [], none => []
  | [], some r => [r]
  | i :: rest, none =>
    if p i then countAux p rest (some (i, 1)) else countAux p rest none
  | i :: rest, some (st, c) =>
    if p i then countAux p rest (some (st, c + 1))
    else (st, c) :: countAux p rest none

/-- `getFreeBlocksCounting()`: maximal runs of free blocks as `(start, count)`. -/
def getFreeBlocksCounting (s : Simulator) : List (Nat × Nat) :=
  countAux (isFree s) (List.range s.blocks.length) none

/-- Sum over consecutive pairs of `|id_i - id_(i-1)|` (in tenths: the source
multiplies by 0.1 ms). -/
def seekSum : List Nat → Nat
  | [] => 0
  | [_] => 0
  | a :: b :: rest => Nat.dist a b + seekSum (b :: rest)

/-- `calculateSeekTime(blocks)` in tenths of ms; the source's
`Math.round(totalSeek * 10) / 10` is the identity under this scaling. -/
def calculateSeekTime (blocks : List Nat) : Nat :=
  if blocks.length ≤ 1 then 10 else seekSum blocks

/-- Allocation strategies (`AllocationMethod` in the source). -/
inductive AllocationMethod where
  | contiguous
  | linked
  | indexed
deriving DecidableEq

/-- `allocateContiguous(size)`: first-fit scan of `i` over `[4, totalBlocks - size]`
for a run of `size` consecutive free blocks. -/
def allocateContiguous (s : Simulator) (size : Nat) : List Nat :=
  match (List.range' 4 (s.blocks.length - size - 3)).find?
      (fun i => (List.range' i size).all (isFree s)) with
  | some i => List.range' i size
  | none => []

/-- `allocateLinked(size)`: the first `size` free blocks at indices ≥ 4. -/
def allocateLinked (s : Simulator) (size : Nat) : List Nat :=
  let picked := ((List.range' 4 (s.blocks.length - 4)).filter (isFree s)).take size
  if picked.length == size then picked else []

/-- `allocateIndexed(size)`: the first `size + 1` free blocks at ids ≥ 4
(the extra one is the index block). -/
def allocateIndexed (s : Simulator) (size : Nat) : List Nat :=
  let freeBlocks := (getFreeBlocksLinkedList s).filter (fun b => 4 ≤ b)
  if freeBlocks.length < size + 1 then [] else freeBlocks.take (size + 1)

/-- The `switch (method)` dispatch inside `createFile`. -/
def allocFor (s : Simulator) (size : Nat) : AllocationMethod → List Nat
  | .contiguous => allocateContiguous s size
  | .linked => allocateLinked s size
  | .indexed => allocateIndexed s size

/-- The marking loop of `createFile`: set each allocated block to used, owned by
the new file, with label `[name:blockId]`. -/
def markUsed (blocks : List DiskBlock) (allocated : List Nat) (fid name : String) :
    List DiskBlock :=
  allocated.foldl (fun bs i => updateAt bs i (fun b =>
    { b with
      status := .used
      fileId := some fid
      data := "[" ++ name ++ ":" ++ toString i ++ "]" })) blocks

/-- The parent-linking step shared by `createFile`/`createDirectory`: push the new
id onto the parent's `children` when the parent exists and has a `children` list. -/
def addChild (files : List (String × FileEntry)) (parentId childId : String) :
    List (String × FileEntry) :=
  match mapGet files parentId with
  | some parent =>
    match parent.children with
    | some _ => mapUpdate files parentId (fun f =>
        match f.children with
        | some cs => { f with children := some (cs ++ [childId]) }
        | none => f)
    | none => files
  | none => files

/-- `createFile(name, sizeInBlocks, parentId, method)`; `now` stands for
`Date.now()` and `newId` for the randomly generated file id. -/
def createFile (s : Simulator) (name : String) (sizeInBlocks : Nat) (parentId : String)
    (method : AllocationMethod) (now : Nat) (newId : String) :
    Option FileEntry × Simulator :=
  if (getFreeBlocksLinkedList s).length < sizeInBlocks then (none, s)
  else
    let allocated := allocFor s sizeInBlocks method
    if allocated.isEmpty then (none, s)
    else
      let file : FileEntry :=
        { id := newId
          name := name
          size := sizeInBlocks * s.blockSize
          blocks := allocated
          createdAt := now
          modifiedAt := now
          accessedAt := now
          isDirectory := false
          parentId := some parentId
          children := none
          permissions := "rw-r--r--"
          inode := s.nextInode }
      let seek := calculateSeekTime allocated
      let entry : AccessLog :=
        { timestamp := now
          operation := "create"
          fileId := newId
          fileName := name
          blocks := allocated
          seekTime := seek
          transferTime := sizeInBlocks * 5
          totalTime := seek + sizeInBlocks * 5
          success := true }
      (some file,
        { s with
          blocks := markUsed s.blocks allocated newId name
          files := addChild (mapSet s.files newId file) parentId newId
          accessLog := s.accessLog ++ [entry]
          nextInode := s.nextInode + 1 })

/-- `createDirectory(name, parentId)`; appends no access-log entry. -/
def createDirectory (s : Simulator) (name : String) (parentId : String) (now : Nat)
    (newId : String) : Option FileEntry × Simulator :=
  let dir : FileEntry :=
    { id := newId
      name := name
      size := 0
      blocks := []
      createdAt := now
      modifiedAt := now
      accessedAt := now
      isDirectory := true
      parentId := some parentId
      children := some []
      permissions := "rwxr-xr-x"
      inode := s.nextInode }
  (some dir,
    { s with
      files := addChild (mapSet s.files newId dir) parentId newId
      nextInode := s.nextInode + 1 })

/-- The block-freeing loop of `deleteFile`. -/
def freeBlocksOf (blocks : List DiskBlock) (ids : List Nat) : List DiskBlock :=
  ids.foldl (fun bs i => updateAt bs i (fun b =>
    { b with
      status := .free
      fileId := none
      data := "" })) blocks

/-- `deleteFile(fileId)`; its log entry has seek 0, transfer 0, total 1 tenth (0.1 ms). -/
def deleteFile (s : Simulator) (fileId : String) (now : Nat) : Bool × Simulator :=
  match mapGet s.files fileId with
  | none => (false, s)
  | some file =>
    if file.isDirectory then (false, s)
    else
      let entry : AccessLog :=
        { timestamp := now
          operation := "delete"
          fileId := fileId
          fileName := file.name
          blocks := file.blocks
          seekTime := 0
          transferTime := 0
          totalTime := 1
          success := true }
      let files' := mapUpdate s.files (file.parentId.getD "root") (fun p =>
        match p.children with
        | some cs => { p with children := some (cs.filter (fun c => !(c == fileId))) }
        | none => p)
      (true,
        { s with
          blocks := freeBlocksOf s.blocks file.blocks
          files := mapDelete files' fileId
          accessLog := s.accessLog ++ [entry] })

/-- `readFile(fileId)`. -/
def readFile (s : Simulator) (fileId : String) (now : Nat) :
    Option AccessLog × Simulator :=
  match mapGet s.files fileId with
  | none => (none, s)
  | some file =>
    let seek := calculateSeekTime file.blocks
    let transfer := file.blocks.length * 5
    let entry : AccessLog :=
      { timestamp := now
        operation := "read"
        fileId := fileId
        fileName := file.name
        blocks := file.blocks
        seekTime := seek
        transferTime := transfer
        totalTime := seek + transfer
        success := !(file.blocks.any (fun b =>
          match s.blocks[b]? with
          | some bb => bb.status == .corrupted
          | none => false)) }
    (some entry,
      { s with
        files := mapUpdate s.files fileId (fun f => { f with accessedAt := now })
        accessLog := s.accessLog ++ [entry] })

/-- `simulateCrash(severity)`; `shuffle` stands for the random-comparator sort
applied to the list of used block ids. -/
def simulateCrash (s : Simulator) (severity : ℚ) (shuffle : List Nat → List Nat) :
    List Nat × Simulator :=
  let usedBlocks := (s.blocks.filter (fun b => b.status == .used)).map (·.id)
  let numToCorrupt := max 1 (Int.toNat ⌊(usedBlocks.length : ℚ) * severity⌋)
  let chosen := (shuffle usedBlocks).take numToCorrupt
  (chosen,
    { s with
      blocks := chosen.foldl (fun bs i =>
        updateAt bs i (fun b => { b with status := .corrupted })) s.blocks })

/-- Intermediate state threaded through the recovery loop: the processed block
prefix, the evolving file table, log, and the three result accumulators. -/
structure RecoverState where
  blocks : List DiskBlock
  files : List (String × FileEntry)
  accessLog : List AccessLog
  recovered : List Nat
  lost : List Nat
  filesAffected : List String

/-- The `this.files.get(block.fileId || "")?.name || "unknown"` lookup. -/
def recoverName (files : List (String × FileEntry)) (fid : Option String) : String :=
  match mapGet files (fid.getD "") with
  | some f => if f.name == "" then "unknown" else f.name
  | none => "unknown"

/-- The per-block loop of `recoverCorruptedBlocks`: the k-th corrupted block seen
is recovered iff `oracle k` (the source's `Math.random() < 0.7`). -/
def recoverAux (blockSize : Nat) (oracle : Nat → Bool) (now : Nat) :
    List DiskBlock → Nat → List (String × FileEntry) → List AccessLog →
    List Nat → List Nat → List String → RecoverState
  | [], _, files, log, recd, lost, aff =>
    { blocks := []
      files := files
      accessLog := log
      recovered := recd
      lost := lost
      filesAffected := aff }
  | b :: rest, k, files, log, recd, lost, aff =>
    if b.status == .corrupted then
      let aff' := match b.fileId with
        | some fid => if aff.contains fid then aff else aff ++ [fid]
        | none => aff
      if oracle k then
        let entry : AccessLog :=
          { timestamp := now
            operation := "recover"
            fileId := b.fileId.getD "unknown"
            fileName := recoverName files b.fileId
            blocks := [b.id]
            seekTime := 20
            transferTime := 10
            totalTime := 30
            success := true }
        let res := recoverAux blockSize oracle now rest (k + 1) files (log ++ [entry])
          (recd ++ [b.id]) lost aff'
        { res with blocks := { b with status := .used } :: res.blocks }
      else
        let entry : AccessLog :=
          { timestamp := now
            operation := "recover"
            fileId := b.fileId.getD "unknown"
            fileName := recoverName files b.fileId
            blocks := [b.id]
            seekTime := 20
            transferTime := 10
            totalTime := 30
            success := false }
        let files' := match b.fileId with
          | some fid => mapUpdate files fid (fun f =>
              let nb := f.blocks.filter (fun x => !(x == b.id))
              { f with blocks := nb, size := nb.length * blockSize })
          | none => files
        let res := recoverAux blockSize oracle now rest (k + 1) files' (log ++ [entry])
          recd (lost ++ [b.id]) aff'
        { res with
          blocks :=
            { b with
              status := .free
              fileId := none
              data := "" } :: res.blocks }
    else
      let res := recoverAux blockSize oracle now rest k files log recd lost aff
      { res with blocks := b :: res.blocks }

/-- `recoverCorruptedBlocks()`: returns `(recovered, lost, filesAffected)` and the
new engine state. -/
def recoverCorruptedBlocks (s : Simulator) (oracle : Nat → Bool) (now : Nat) :
    (List Nat × List Nat × List String) × Simulator :=
  let r := recoverAux s.blockSize oracle now s.blocks 0 s.files s.accessLog [] [] []
  ((r.recovered, r.lost, r.filesAffected),
    { s with
      blocks := r.blocks
      files := r.files
      accessLog := r.accessLog })

/-- Result of `runFsck()`. -/
structure FsckResult where
  orphanBlocks : List Nat
  missingBlocks : List Nat
  inconsistentFiles : List String
deriving DecidableEq

/-- The per-block inconsistency test inside `runFsck`'s file scan
(`status === "corrupted" || fileId !== file.id`, true when out of range). -/
def fsckBlockBad (s : Simulator) (f : FileEntry) (x : Nat) : Bool :=
  match s.blocks[x]? with
  | some b => b.status == .corrupted || !(b.fileId == some f.id)
  | none => true

/-- `Set.add`: append when not already present (JS `Set` keeps first-insertion order). -/
def insertDistinct [BEq α] (l : List α) (x : α) : List α :=
  if l.contains x then l else l ++ [x]

/-- The `referencedBlocks` set of `runFsck`, as a first-occurrence-ordered list. -/
def referencedList (s : Simulator) : List Nat :=
  s.files.foldl (fun acc p => p.2.blocks.foldl insertDistinct acc) []

/-- `runFsck()`. -/
def runFsck (s : Simulator) : FsckResult :=
  { inconsistentFiles := (s.files.flatMap (fun p =>
      (p.2.blocks.filter (fsckBlockBad s p.2)).map (fun _ => p.2.id))).foldl
        insertDistinct []
    orphanBlocks := (s.blocks.filter (fun b =>
      b.status == .used && !(s.files.any (fun p => p.2.blocks.contains b.id)))).map (·.id)
    missingBlocks := (referencedList s).filter (fun x =>
      match s.blocks[x]? with
      | some b => b.status == .free
      | none => false) }

/-- Phase 2 of `defragment`: reset every block at index ≥ 4 to a fresh free block. -/
def clearFrom : Nat → List DiskBlock → List DiskBlock
  | _, [] => []
  | i, b :: bs =>
    (if i < 4 then b
     else { id := i, status := BlockStatus.free, fileId := none, data := "" }) ::
      clearFrom (i + 1) bs

/-- Phase 1 of `defragment`: the `savedBlocks` snapshot.  The source stores, for
every block id owned by some file, the original block's `status`/`fileId`/`data`;
looking the map up at such an id yields exactly the original block, which is what
this function returns (the default is never reached on ids the source snapshots,
since they index into `this.blocks`). -/
def snapshotOf (origBlocks : List DiskBlock) (x : Nat) : DiskBlock :=
  origBlocks.getD x { id := x, status := .free, fileId := none, data := "" }

/-- The inner placement loop of `defragment` phase 3: write the snapshot contents
of the file's old blocks consecutively starting at `nf`. -/
def writeBlocks (snap : Nat → DiskBlock) : List Nat → Nat → List DiskBlock → List DiskBlock
  | [], _, bs => bs
  | o :: os, nf, bs =>
    writeBlocks snap os (nf + 1) (updateAt bs nf (fun _ =>
      { id := nf
        status := (snap o).status
        fileId := (snap o).fileId
        data := (snap o).data }))

/-- The `moves` recorded while placing one file whose old blocks are `obs`,
starting at `nf`: one `(from, to)` pair per block whose id changed. -/
def movesFor (obs : List Nat) (nf : Nat) : List (Nat × Nat) :=
  (obs.zip (List.range' nf obs.length)).filterMap (fun q =>
    if q.1 == q.2 then none else some q)

/-- State threaded through `defragment` phase 3. -/
structure DefragState where
  blocks : List DiskBlock
  files : List (String × FileEntry)
  nextFree : Nat
  moves : List (Nat × Nat)

/-- Phase 3 of `defragment`: place each file contiguously at the next free position. -/
def defragAux (snap : Nat → DiskBlock) : List (String × List Nat) → DefragState → DefragState
  | [], st => st
  | (fid, obs) :: rest, st =>
    match mapGet st.files fid with
    | none => defragAux snap rest st
    | some _ =>
      defragAux snap rest
        { blocks := writeBlocks snap obs st.nextFree st.blocks
          files := mapUpdate st.files fid (fun f =>
            { f with blocks := List.range' st.nextFree obs.length })
          nextFree := st.nextFree + obs.length
          moves := st.moves ++ movesFor obs st.nextFree }

/-- Insertion step of the sort `fileBlocks.sort((a, b) => a.blocks[0] - b.blocks[0])`. -/
def sortInsert (x : String × List Nat) : List (String × List Nat) → List (String × List Nat)
  | [] => [x]
  | y :: ys => if y.2.headD 0 ≤ x.2.headD 0 then y :: sortInsert x ys else x :: y :: ys

/-- Stable sort of the `fileBlocks` list by first block id. -/
def sortByFirstBlock : List (String × List Nat) → List (String × List Nat)
  | [] => []
  | x :: xs => sortInsert x (sortByFirstBlock xs)

/-- The `fileBlocks` list collected at the start of `defragment`: every
non-directory file with at least one block, as `(file.id, copy of file.blocks)`. -/
def fileBlocksOf (s : Simulator) : List (String × List Nat) :=
  s.files.filterMap (fun p =>
    if p.2.isDirectory == false && !p.2.blocks.isEmpty then some (p.2.id, p.2.blocks)
    else none)

/-- `defragment()`: returns `(moves, timeSaved in tenths of ms)` and the new state. -/
def defragment (s : Simulator) : (List (Nat × Nat) × Nat) × Simulator :=
  let st := defragAux (snapshotOf s.blocks) (sortByFirstBlock (fileBlocksOf s))
    { blocks := clearFrom 0 s.blocks
      files := s.files
      nextFree := 4
      moves := [] }
  ((st.moves, st.moves.length * 8),
    { s with
      blocks := st.blocks
      files := st.files })

/-- A node of the tree view returned by `getDirectoryTree`. -/
structure DirectoryNode where
  id : String
  name : String
  children : List DirectoryNode
  isDirectory : Bool
  size : Nat
  depth : Nat

/-- `getDirectoryTree(nodeId, depth)`.  The source recurses through `children`
ids; `fuel` bounds the recursion depth (any `fuel` at least the number of file
entries reproduces the source on the acyclic trees the engine builds).  An
unknown id yields the fixed leaf node regardless of fuel. -/
def getDirectoryTree (s : Simulator) : Nat → String → Nat → DirectoryNode
  | 0, nodeId, depth =>
    (match mapGet s.files nodeId with
     | none =>
       { id := nodeId
         name := "unknown"
         children := []
         isDirectory := false
         size := 0
         depth := depth }
     | some e =>
       { id := e.id
         name := e.name
         children := []
         isDirectory := e.isDirectory
         size := e.size
         depth := depth })
  | fuel + 1, nodeId, depth =>
    (match mapGet s.files nodeId with
     | none =>
       { id := nodeId
         name := "unknown"
         children := []
         isDirectory := false
         size := 0
         depth := depth }
     | some e =>
       { id := e.id
         name := e.name
         isDirectory := e.isDirectory
         size := e.size
         depth := depth
         children :=
           match e.isDirectory, e.children with
           | true, some cs => cs.map (fun c => getDirectoryTree s fuel c (depth + 1))
           | _, _ => [] })

/-- The constructor / `initializeDisk()`: `totalBlocks` blocks (first four
reserved), a root directory, inode counter starting at 2. -/
def initSimulator (totalBlocks blockSize now : Nat) : Simulator :=
  { blocks := (List.range totalBlocks).map (fun i =>
      { id := i
        status := if i < 4 then .reserved else .free
        fileId := none
        data := "" })
    files := [("root",
      { id := "root"
        name := "/"
        size := 0
        blocks := []
        createdAt := now
        modifiedAt := now
        accessedAt := now
        isDirectory := true
        parentId := none
        children := some []
        permissions := "rwxr-xr-x"
        inode := 1 })]
    accessLog := []
    blockSize := blockSize
    nextInode := 2 }


/-! ### General helper lemmas -/

theorem mapGet_eq_none_iff {files : List (String × FileEntry)} {k : String} :
    mapGet files k = none ↔ ∀ p ∈ files, p.1 ≠ k := by
  simp [mapGet, List.find?_eq_none]

theorem mem_getFreeBlocksLinkedList {s : Simulator} {x : Nat}
    (h : x ∈ getFreeBlocksLinkedList s) : isFree s x = true :=
  (List.mem_filter.mp h).2

theorem isFree_iff {s : Simulator} {x : Nat} :
    isFree s x = true ↔ ∃ b, s.blocks[x]? = some b ∧ b.status = BlockStatus.free := by
  unfold isFree
  cases h : s.blocks[x]? with
  | none => simp
  | some b => simp [beq_iff_eq]

/-! ### C5: the three free-space views agree -/

/-- Flatten one `(start, count)` run of `getFreeBlocksCounting` into its block ids. -/
def runFlat (r : Nat × Nat) : List Nat := List.range' r.1 r.2

theorem groupAux_flatten (p : Nat → Bool) :
    ∀ (l cur : List Nat), (groupAux p l cur).flatten = cur ++ l.filter p := by
  intro l
  induction l with
  | nil =>
    intro cur
    cases cur <;> simp [groupAux]
  | cons i rest ih =>
    intro cur
    by_cases hp : p i
    · by_cases hlen : ((cur ++ [i]).length == 8) = true
      · simp only [groupAux, hp, if_true, hlen, List.flatten_cons, ih, List.filter_cons,
          List.append_nil]
        simp [List.append_assoc]
      · have hlen' : ((cur ++ [i]).length == 8) = false := by
          simpa using hlen
        simp only [groupAux, hp, if_true, hlen', Bool.false_eq_true, if_false, ih,
          List.filter_cons]
        simp [List.append_assoc]
    · have hp' : p i = false := by simpa using hp
      cases cur with
      | nil => simp [groupAux, hp', ih, List.filter_cons]
      | cons c cs =>
        simp only [groupAux, hp', Bool.false_eq_true, if_false, List.isEmpty_cons,
          List.flatten_cons, ih, List.filter_cons, List.append_nil]
        simp [List.filter_cons, hp']

theorem countAux_flatten (p : Nat → Bool) :
    ∀ (n a : Nat),
      (((countAux p (List.range' a n) none).map runFlat).flatten
        = (List.range' a n).filter p) ∧
      (∀ st c, st + c = a →
        (((countAux p (List.range' a n) (some (st, c))).map runFlat).flatten
          = List.range' st c ++ (List.range' a n).filter p)) := by
  intro n
  induction n with
  | zero =>
    intro a
    refine ⟨by simp [countAux], ?_⟩
    intro st c _
    simp [countAux, runFlat]
  | succ m ih =>
    intro a
    have hr : List.range' a (m + 1) = a :: List.range' (a + 1) m := List.range'_succ a m 1
    constructor
    · rw [hr]
      by_cases hp : p a
      · simp only [countAux, hp, if_true]
        rw [(ih (a + 1)).2 a 1 (by omega)]
        simp [List.filter_cons, hp, List.range'_succ]
      · have hp' : p a = false := by simpa using hp
        simp only [countAux, hp', Bool.false_eq_true, if_false]
        rw [(ih (a + 1)).1]
        simp [List.filter_cons, hp']
    · intro st c hstc
      rw [hr]
      by_cases hp : p a
      · simp only [countAux, hp, if_true]
        rw [(ih (a + 1)).2 st (c + 1) (by omega)]
        have hcat : List.range' st (c + 1) = List.range' st c ++ [a] := by
          rw [List.range'_concat]
          simp [Nat.one_mul, hstc]
        rw [hcat]
        simp [List.filter_cons, hp, List.append_assoc]
      · have hp' : p a = false := by simpa using hp
        simp only [countAux, hp', Bool.false_eq_true, if_false, List.map_cons,
          List.flatten_cons]
        rw [(ih (a + 1)).1]
        simp [runFlat, List.filter_cons, hp']

/-- Claim C5: for every disk state, flattening `getFreeBlocksCounting()` run-by-run
and flattening `getFreeBlocksGrouping()` group-by-group each reproduce
`getFreeBlocksLinkedList()` exactly — the same ids in the same ascending order. -/
theorem c5_free_space_views_agree (s : Simulator) :
    (getFreeBlocksGrouping s).flatten = getFreeBlocksLinkedList s ∧
    ((getFreeBlocksCounting s).map runFlat).flatten = getFreeBlocksLinkedList s := by
  constructor
  · rw [getFreeBlocksGrouping, getFreeBlocksLinkedList, groupAux_flatten]
    simp
  · rw [getFreeBlocksCounting, getFreeBlocksLinkedList, List.range_eq_range']
    exact (countAux_flatten (isFree s) s.blocks.length 0).1

/-! ### C9: `getDirectoryTree` on an unknown id -/

/-- Claim C9: for every engine state and id not present in the file table,
`getDirectoryTree` returns the leaf node with that id, name `"unknown"`,
`isDirectory = false`, size 0 and no children. -/
theorem c9_directory_tree_unknown (s : Simulator) (fuel : Nat) (nodeId : String)
    (depth : Nat) (h : mapGet s.files nodeId = none) :
    getDirectoryTree s fuel nodeId depth =
      ⟨nodeId, "unknown", [], false, 0, depth⟩ := by
  cases fuel <;> simp [getDirectoryTree, h]

theorem c9_directory_tree_unknown_witness :
    mapGet (initSimulator 8 4096 0).files "missing" = none ∧
    getDirectoryTree (initSimulator 8 4096 0) 5 "missing" 0 =
      ⟨"missing", "unknown", [], false, 0, 0⟩ :=
  ⟨by decide, c9_directory_tree_unknown _ 5 "missing" 0 (by decide)⟩

/-! ### C3: allocation is all-or-nothing -/

/-- Claim C3: whenever `createFile` fails (returns no entry), the engine state is
exactly as before the call — no block status, owner or label changed, no file
entry created. -/
theorem c3_allocation_all_or_nothing (s : Simulator) (name : String) (n : Nat)
    (pid : String) (m : AllocationMethod) (now : Nat) (nid : String)
    (h : (createFile s name n pid m now nid).1 = none) :
    (createFile s name n pid m now nid).2 = s := by
  by_cases h1 : (getFreeBlocksLinkedList s).length < n
  · simp [createFile, h1]
  · by_cases h2 : (allocFor s n m).isEmpty
    · simp [createFile, h1, h2]
    · exfalso
      simp [createFile, h1, h2] at h

theorem c3_allocation_all_or_nothing_witness :
    (createFile (initSimulator 8 4096 0) "big" 100 "root" .contiguous 0 "f1").1 = none ∧
    (createFile (initSimulator 8 4096 0) "big" 100 "root" .contiguous 0 "f1").2 =
      initSimulator 8 4096 0 :=
  ⟨by decide, c3_allocation_all_or_nothing _ "big" 100 "root" .contiguous 0 "f1" (by decide)⟩

/-! ### C4: successful allocations have the right length and use only free blocks -/

theorem allocateContiguous_nonempty {s : Simulator} {n : Nat}
    (h : allocateContiguous s n ≠ []) :
    (allocateContiguous s n).length = n ∧
    ∀ x ∈ allocateContiguous s n, isFree s x = true := by
  cases hf : (List.range' 4 (s.blocks.length - n - 3)).find?
      (fun i => (List.range' i n).all (isFree s)) with
  | none =>
    exfalso
    apply h
    simp [allocateContiguous, hf]
  | some i =>
    have heq : allocateContiguous s n = List.range' i n := by
      simp [allocateContiguous, hf]
    have hall := List.find?_some hf
    rw [List.all_eq_true] at hall
    rw [heq]
    exact ⟨by simp, hall⟩

theorem allocateLinked_nonempty {s : Simulator} {n : Nat}
    (h : allocateLinked s n ≠ []) :
    (allocateLinked s n).length = n ∧
    ∀ x ∈ allocateLinked s n, isFree s x = true := by
  simp only [allocateLinked] at h ⊢
  by_cases hc : ((((List.range' 4 (s.blocks.length - 4)).filter (isFree s)).take n).length
      == n) = true
  · simp only [hc, if_true]
    refine ⟨beq_iff_eq.mp hc, ?_⟩
    intro x hx
    have hx' := List.take_subset _ _ hx
    exact (List.mem_filter.mp hx').2
  · simp only [Bool.not_eq_true] at hc
    exfalso
    apply h
    simp only [hc, Bool.false_eq_true, if_false]

theorem allocateIndexed_nonempty {s : Simulator} {n : Nat}
    (h : allocateIndexed s n ≠ []) :
    (allocateIndexed s n).length = n + 1 ∧
    ∀ x ∈ allocateIndexed s n, isFree s x = true := by
  simp only [allocateIndexed] at h ⊢
  by_cases hc : ((getFreeBlocksLinkedList s).filter (fun b => 4 ≤ b)).length < n + 1
  · exfalso
    apply h
    simp [hc]
  · simp only [hc, if_false]
    constructor
    · rw [List.length_take]
      omega
    · intro x hx
      have hx' := List.take_subset _ _ hx
      exact mem_getFreeBlocksLinkedList (List.mem_filter.mp hx').1

theorem createFile_success {s : Simulator} {name : String} {n : Nat} {pid : String}
    {m : AllocationMethod} {now : Nat} {nid : String} {f : FileEntry} {s' : Simulator}
    (h : createFile s name n pid m now nid = (some f, s')) :
    f.blocks = allocFor s n m ∧ allocFor s n m ≠ [] ∧ f.size = n * s.blockSize := by
  by_cases h1 : (getFreeBlocksLinkedList s).length < n
  · exfalso
    have := congrArg Prod.fst h
    simp [createFile, h1] at this
  · by_cases h2 : (allocFor s n m).isEmpty = true
    · exfalso
      have := congrArg Prod.fst h
      simp [createFile, h1, h2] at this
    · have hne : allocFor s n m ≠ [] := by
        intro hnil
        apply h2
        simp [hnil]
      have := congrArg Prod.fst h
      simp only [createFile] at this
      rw [if_neg h1] at this
      simp only [h2, Bool.false_eq_true, if_false] at this
      simp only [Option.some.injEq] at this
      rw [← this]
      exact ⟨rfl, hne, rfl⟩

/-- Claim C4: every successful `createFile` returns an entry whose `blocks` has
length `sizeInBlocks` under `contiguous`/`linked` and `sizeInBlocks + 1` under
`indexed`, and every returned block id had status `Free` immediately before the
call. -/
theorem c4_successful_create_blocks (s : Simulator) (name : String) (n : Nat)
    (pid : String) (m : AllocationMethod) (now : Nat) (nid : String) (f : FileEntry)
    (s' : Simulator) (h : createFile s name n pid m now nid = (some f, s')) :
    (m ≠ AllocationMethod.indexed → f.blocks.length = n) ∧
    (m = AllocationMethod.indexed → f.blocks.length = n + 1) ∧
    ∀ x ∈ f.blocks, ∃ b, s.blocks[x]? = some b ∧ b.status = BlockStatus.free := by
  obtain ⟨hb, hne, _⟩ := createFile_success h
  have hfree : (∀ x ∈ allocFor s n m, isFree s x = true) →
      ∀ x ∈ f.blocks, ∃ b, s.blocks[x]? = some b ∧ b.status = BlockStatus.free := by
    intro hall x hx
    rw [hb] at hx
    exact isFree_iff.mp (hall x hx)
  cases m with
  | contiguous =>
    obtain ⟨hl, ha⟩ := allocateContiguous_nonempty (n := n) (s := s) hne
    exact ⟨fun _ => (by rw [hb]; exact hl), fun hc => absurd hc (by decide), hfree ha⟩
  | linked =>
    obtain ⟨hl, ha⟩ := allocateLinked_nonempty (n := n) (s := s) hne
    exact ⟨fun _ => (by rw [hb]; exact hl), fun hc => absurd hc (by decide), hfree ha⟩
  | indexed =>
    obtain ⟨hl, ha⟩ := allocateIndexed_nonempty (n := n) (s := s) hne
    exact ⟨fun hc => absurd rfl hc, fun _ => (by rw [hb]; exact hl), hfree ha⟩
def c4exF : FileEntry :=
  ((createFile (initSimulator 8 4096 0) "a" 2 "root" .indexed 0 "f1").1).get (by decide)

def c4exS : Simulator :=
  (createFile (initSimulator 8 4096 0) "a" 2 "root" .indexed 0 "f1").2

theorem c4_successful_create_blocks_witness :
    createFile (initSimulator 8 4096 0) "a" 2 "root" .indexed 0 "f1" = (some c4exF, c4exS) ∧
    ((AllocationMethod.indexed ≠ AllocationMethod.indexed → c4exF.blocks.length = 2) ∧
     (AllocationMethod.indexed = AllocationMethod.indexed → c4exF.blocks.length = 2 + 1) ∧
     ∀ x ∈ c4exF.blocks, ∃ b, (initSimulator 8 4096 0).blocks[x]? = some b ∧
       b.status = BlockStatus.free) :=
  ⟨by decide,
   c4_successful_create_blocks (initSimulator 8 4096 0) "a" 2 "root" .indexed 0 "f1"
     c4exF c4exS (by decide)⟩

/-! ### C10: zero-block files -/

/-- Claim C10: on any state with at least one non-reserved free block,
`createFile` with `sizeInBlocks = 0` succeeds under `indexed` with exactly one
block (the index block) and size 0, while under `contiguous` and `linked` it
always fails. -/
theorem c10_zero_size_create (s : Simulator) (name pid : String) (now : Nat)
    (nid : String) (h : (getFreeBlocksLinkedList s).filter (fun b => 4 ≤ b) ≠ []) :
    ((createFile s name 0 pid .indexed now nid).1.map (fun f => (f.blocks.length, f.size)))
      = some (1, 0) ∧
    (createFile s name 0 pid .contiguous now nid).1 = none ∧
    (createFile s name 0 pid .linked now nid).1 = none := by
  have h1 : ¬ (getFreeBlocksLinkedList s).length < 0 := by omega
  refine ⟨?_, ?_, ?_⟩
  · have hlen : ¬ ((getFreeBlocksLinkedList s).filter (fun b => 4 ≤ b)).length < 0 + 1 := by
      have := List.length_pos.mpr h
      omega
    have hia : allocFor s 0 .indexed
        = ((getFreeBlocksLinkedList s).filter (fun b => 4 ≤ b)).take (0 + 1) := by
      simp only [allocFor, allocateIndexed]
      rw [if_neg hlen]
    cases hfb : (getFreeBlocksLinkedList s).filter (fun b => 4 ≤ b) with
    | nil => exact absurd hfb h
    | cons a t =>
      have halloc : allocFor s 0 .indexed = [a] := by
        rw [hia, hfb]
        rfl
      simp only [createFile]
      rw [if_neg h1, halloc]
      simp
  · have hc : allocateContiguous s 0 = [] := by
      show (match (List.range' 4 (s.blocks.length - 0 - 3)).find?
          (fun i => (List.range' i 0).all (isFree s)) with
        | some i => List.range' i 0
        | none => []) = []
      cases (List.range' 4 (s.blocks.length - 0 - 3)).find?
          (fun i => (List.range' i 0).all (isFree s)) with
      | none => rfl
      | some i => simp
    simp only [createFile]
    rw [if_neg h1]
    simp [allocFor, hc]
  · have hl : allocateLinked s 0 = [] := by
      simp [allocateLinked]
    simp only [createFile]
    rw [if_neg h1]
    simp [allocFor, hl]

theorem c10_zero_size_create_witness :
    (getFreeBlocksLinkedList (initSimulator 8 4096 0)).filter (fun b => 4 ≤ b) ≠ [] ∧
    (((createFile (initSimulator 8 4096 0) "z" 0 "root" .indexed 0 "f1").1.map
        (fun f => (f.blocks.length, f.size))) = some (1, 0) ∧
     (createFile (initSimulator 8 4096 0) "z" 0 "root" .contiguous 0 "f1").1 = none ∧
     (createFile (initSimulator 8 4096 0) "z" 0 "root" .linked 0 "f1").1 = none) :=
  ⟨by decide, c10_zero_size_create (initSimulator 8 4096 0) "z" "root" 0 "f1" (by decide)⟩

/-! ### C2: `createFile` does not validate `parentId` -/

theorem mapSet_of_absent {files : List (String × FileEntry)} {nid : String} {v : FileEntry}
    (h : ∀ p ∈ files, p.1 ≠ nid) :
    mapSet files nid v = files ++ [(nid, v)] := by
  unfold mapSet
  rw [if_neg]
  intro hany
  obtain ⟨p, hp, hbeq⟩ := List.any_eq_true.mp hany
  exact h p hp (beq_iff_eq.mp hbeq)

theorem mapGet_append_left_none {l₁ l₂ : List (String × FileEntry)} {k : String}
    (h : mapGet l₁ k = none) : mapGet (l₁ ++ l₂) k = mapGet l₂ k := by
  unfold mapGet at *
  rw [List.find?_append]
  cases hf : List.find? (fun p => p.1 == k) l₁ with
  | none => rfl
  | some p =>
    rw [hf] at h
    simp at h

theorem addChild_parent_none {files : List (String × FileEntry)} {pid cid : String}
    (h : mapGet files pid = none ∨ ∃ e, mapGet files pid = some e ∧ e.children = none) :
    addChild files pid cid = files := by
  unfold addChild
  rcases h with h | ⟨e, he, hch⟩
  · rw [h]
  · rw [he]
    simp [hch]

theorem mapGet_singleton_self (k : String) (v : FileEntry) : mapGet [(k, v)] k = some v := by
  simp [mapGet]

theorem mapGet_singleton_ne {k q : String} (v : FileEntry) (h : k ≠ q) :
    mapGet [(k, v)] q = none := by
  unfold mapGet
  have hb : (k == q) = false := by
    simp [h]
  simp [List.find?, hb]

/-- Counterexample to claim C2: `createFile` succeeds (and creates an entry) even
when `parentId` names no existing entry. -/
theorem c2_counterexample :
    mapGet (initSimulator 8 4096 0).files "nope" = none ∧
    (createFile (initSimulator 8 4096 0) "a" 1 "nope" .contiguous 0 "f1").1.isSome = true :=
  ⟨by decide, by decide⟩

/-- Claim C2 (amended): `createFile` does not check `parentId`.  When `parentId`
names no existing entry (and the generated id is fresh), the call either fails for
allocation reasons with the state unchanged, or succeeds and appends the new entry
to the file table without linking it into any parent's `children`. -/
theorem c2_create_missing_parent (s : Simulator) (name : String) (n : Nat)
    (pid : String) (m : AllocationMethod) (now : Nat) (nid : String)
    (hp : mapGet s.files pid = none) (hn : mapGet s.files nid = none) :
    ((createFile s name n pid m now nid).1 = none ∧
      (createFile s name n pid m now nid).2 = s) ∨
    (∃ f, (createFile s name n pid m now nid).1 = some f ∧
      (createFile s name n pid m now nid).2.files = s.files ++ [(nid, f)]) := by
  by_cases h1 : (getFreeBlocksLinkedList s).length < n
  · left
    constructor <;> simp [createFile, h1]
  · by_cases h2 : (allocFor s n m).isEmpty = true
    · left
      constructor <;> (simp only [createFile]; rw [if_neg h1]; simp [h2])
    · right
      have habs := mapGet_eq_none_iff.mp hn
      simp only [createFile]
      rw [if_neg h1]
      simp only [h2, Bool.false_eq_true, if_false]
      refine ⟨_, rfl, ?_⟩
      rw [mapSet_of_absent habs, addChild_parent_none]
      rw [mapGet_append_left_none hp]
      by_cases hpn : pid = nid
      · subst hpn
        exact Or.inr ⟨_, mapGet_singleton_self _ _, rfl⟩
      · exact Or.inl (mapGet_singleton_ne _ (fun hc => hpn hc.symm))

theorem c2_create_missing_parent_witness :
    mapGet (initSimulator 8 4096 0).files "nope" = none ∧
    mapGet (initSimulator 8 4096 0).files "f1" = none ∧
    (((createFile (initSimulator 8 4096 0) "a" 1 "nope" .contiguous 0 "f1").1 = none ∧
      (createFile (initSimulator 8 4096 0) "a" 1 "nope" .contiguous 0 "f1").2 =
        initSimulator 8 4096 0) ∨
     (∃ f, (createFile (initSimulator 8 4096 0) "a" 1 "nope" .contiguous 0 "f1").1 = some f ∧
       (createFile (initSimulator 8 4096 0) "a" 1 "nope" .contiguous 0 "f1").2.files =
         (initSimulator 8 4096 0).files ++ [("f1", f)])) :=
  ⟨by decide, by decide,
   c2_create_missing_parent (initSimulator 8 4096 0) "a" 1 "nope" .contiguous 0 "f1"
     (by decide) (by decide)⟩
/-! ### C7 / C8: access-log behavior of every operation -/

theorem createDirectory_log (s : Simulator) (name pid : String) (now : Nat) (nid : String) :
    (createDirectory s name pid now nid).2.accessLog = s.accessLog := rfl

theorem simulateCrash_log (s : Simulator) (sev : ℚ) (sh : List Nat → List Nat) :
    (simulateCrash s sev sh).2.accessLog = s.accessLog := rfl

theorem defragment_log (s : Simulator) :
    (defragment s).2.accessLog = s.accessLog := rfl

theorem createFile_log (s : Simulator) (name : String) (n : Nat) (pid : String)
    (m : AllocationMethod) (now : Nat) (nid : String) :
    (createFile s name n pid m now nid).2.accessLog.take s.accessLog.length = s.accessLog ∧
    (createFile s name n pid m now nid).2.accessLog.length =
      s.accessLog.length + (if (createFile s name n pid m now nid).1.isSome then 1 else 0) := by
  by_cases h1 : (getFreeBlocksLinkedList s).length < n
  · simp [createFile, h1, List.take_length]
  · by_cases h2 : (allocFor s n m).isEmpty = true
    · constructor
      · simp only [createFile]
        rw [if_neg h1]
        simp [h2, List.take_length]
      · simp only [createFile]
        rw [if_neg h1]
        simp [h2, List.take_length]
    · constructor
      · simp only [createFile]
        rw [if_neg h1]
        simp [h2, List.take_left, List.length_append]
      · simp only [createFile]
        rw [if_neg h1]
        simp [h2, List.take_left, List.length_append]

theorem deleteFile_log (s : Simulator) (fid : String) (now : Nat) :
    (deleteFile s fid now).2.accessLog.take s.accessLog.length = s.accessLog ∧
    (deleteFile s fid now).2.accessLog.length =
      s.accessLog.length + (if (deleteFile s fid now).1 then 1 else 0) := by
  cases hf : mapGet s.files fid with
  | none => simp [deleteFile, hf, List.take_length]
  | some file =>
    by_cases hd : file.isDirectory = true
    · simp [deleteFile, hf, hd, List.take_length]
    · constructor
      · simp only [deleteFile, hf]
        rw [if_neg hd]
        simp [List.take_left, List.length_append]
      · simp only [deleteFile, hf]
        rw [if_neg hd]
        simp [List.take_left, List.length_append]

theorem readFile_log (s : Simulator) (fid : String) (now : Nat) :
    (readFile s fid now).2.accessLog.take s.accessLog.length = s.accessLog ∧
    (readFile s fid now).2.accessLog.length =
      s.accessLog.length + (if (readFile s fid now).1.isSome then 1 else 0) := by
  cases hf : mapGet s.files fid with
  | none => simp [readFile, hf, List.take_length]
  | some file => simp [readFile, hf, List.take_left, List.length_append]

theorem recoverAux_log (bSize : Nat) (oracle : Nat → Bool) (now : Nat) :
    ∀ (bs : List DiskBlock) (k : Nat) (files : List (String × FileEntry))
      (log : List AccessLog) (recd lost : List Nat) (aff : List String),
    ∃ es, (recoverAux bSize oracle now bs k files log recd lost aff).accessLog = log ++ es ∧
      es.length = bs.countP (fun b => b.status == BlockStatus.corrupted) ∧
      ∀ e ∈ es, e.seekTime = 20 ∧ e.transferTime = 10 ∧ e.totalTime = 30 := by
  intro bs
  induction bs with
  | nil =>
    intro k files log recd lost aff
    exact ⟨[], by simp [recoverAux], by simp, by simp⟩
  | cons b rest ih =>
    intro k files log recd lost aff
    have step : ∀ (E : AccessLog) (k' : Nat) (files' : List (String × FileEntry))
        (recd' lost' : List Nat) (aff' : List String),
        E.seekTime = 20 → E.transferTime = 10 → E.totalTime = 30 →
        ∃ es, (recoverAux bSize oracle now rest k' files' (log ++ [E]) recd' lost'
            aff').accessLog = log ++ es ∧
          es.length = rest.countP (fun b => b.status == BlockStatus.corrupted) + 1 ∧
          ∀ e ∈ es, e.seekTime = 20 ∧ e.transferTime = 10 ∧ e.totalTime = 30 := by
      intro E k' files' recd' lost' aff' h20 h10 h30
      obtain ⟨es, h1, h2, h3⟩ := ih k' files' (log ++ [E]) recd' lost' aff'
      refine ⟨E :: es, ?_, ?_, ?_⟩
      · rw [h1]
        simp
      · simp [h2]
      · intro e he
        rcases List.mem_cons.mp he with rfl | he'
        · exact ⟨h20, h10, h30⟩
        · exact h3 e he'
    by_cases hc : (b.status == BlockStatus.corrupted) = true
    · by_cases ho : oracle k = true
      · simp only [recoverAux, hc, if_true, ho]
        obtain ⟨es, h1, h2, h3⟩ := step
          { timestamp := now
            operation := "recover"
            fileId := b.fileId.getD "unknown"
            fileName := recoverName files b.fileId
            blocks := [b.id]
            seekTime := 20
            transferTime := 10
            totalTime := 30
            success := true }
          (k + 1) files (recd ++ [b.id]) lost
          (match b.fileId with
            | some fid => if aff.contains fid then aff else aff ++ [fid]
            | none => aff) rfl rfl rfl
        refine ⟨es, h1, ?_, h3⟩
        rw [h2, List.countP_cons]
        simp [hc]
      · have ho' : oracle k = false := by simpa using ho
        simp only [recoverAux, hc, if_true, ho', Bool.false_eq_true, if_false]
        obtain ⟨es, h1, h2, h3⟩ := step
          { timestamp := now
            operation := "recover"
            fileId := b.fileId.getD "unknown"
            fileName := recoverName files b.fileId
            blocks := [b.id]
            seekTime := 20
            transferTime := 10
            totalTime := 30
            success := false }
          (k + 1)
          (match b.fileId with
            | some fid => mapUpdate files fid (fun f =>
                { f with
                  blocks := f.blocks.filter (fun x => !(x == b.id))
                  size := (f.blocks.filter (fun x => !(x == b.id))).length * bSize })
            | none => files)
          recd (lost ++ [b.id])
          (match b.fileId with
            | some fid => if aff.contains fid then aff else aff ++ [fid]
            | none => aff) rfl rfl rfl
        refine ⟨es, h1, ?_, h3⟩
        rw [h2, List.countP_cons]
        simp [hc]
    · have hc' : (b.status == BlockStatus.corrupted) = false := by simpa using hc
      simp only [recoverAux, hc', Bool.false_eq_true, if_false]
      obtain ⟨es, h1, h2, h3⟩ := ih k files log recd lost aff
      refine ⟨es, h1, ?_, h3⟩
      rw [h2, List.countP_cons]
      simp [hc']
theorem recover_log (s : Simulator) (oracle : Nat → Bool) (now : Nat) :
    (recoverCorruptedBlocks s oracle now).2.accessLog.take s.accessLog.length = s.accessLog ∧
    (recoverCorruptedBlocks s oracle now).2.accessLog.length =
      s.accessLog.length + s.blocks.countP (fun b => b.status == BlockStatus.corrupted) := by
  obtain ⟨es, h1, h2, _⟩ :=
    recoverAux_log s.blockSize oracle now s.blocks 0 s.files s.accessLog [] [] []
  constructor
  · show (recoverAux s.blockSize oracle now s.blocks 0 s.files s.accessLog []
        [] []).accessLog.take s.accessLog.length = s.accessLog
    rw [h1]
    exact List.take_left _ _
  · show (recoverAux s.blockSize oracle now s.blocks 0 s.files s.accessLog []
        [] []).accessLog.length = _
    rw [h1]
    simp [h2]

/-- Counterexample to claim C7: `createDirectory` appends no access-log entry at
all, not one entry per call. -/
theorem c7_counterexample :
    ¬ ((createDirectory (initSimulator 8 4096 0) "d" "root" 0 "d1").2.accessLog.length
        = (initSimulator 8 4096 0).accessLog.length + 1) := by
  decide

/-- Claim C7 (amended): the access log is append-only (every call leaves the old
log as a prefix).  `createFile`, `deleteFile` and `readFile` append exactly one
entry per successful call and none on failure; `createDirectory`, `simulateCrash`
and `defragment` append none; `recoverCorruptedBlocks` appends exactly one entry
per corrupted block processed. -/
theorem c7_access_log_discipline :
    (∀ (s : Simulator) (name : String) (n : Nat) (pid : String) (m : AllocationMethod)
        (now : Nat) (nid : String),
      (createFile s name n pid m now nid).2.accessLog.take s.accessLog.length = s.accessLog ∧
      (createFile s name n pid m now nid).2.accessLog.length =
        s.accessLog.length + (if (createFile s name n pid m now nid).1.isSome then 1 else 0)) ∧
    (∀ (s : Simulator) (name pid : String) (now : Nat) (nid : String),
      (createDirectory s name pid now nid).2.accessLog = s.accessLog) ∧
    (∀ (s : Simulator) (fid : String) (now : Nat),
      (deleteFile s fid now).2.accessLog.take s.accessLog.length = s.accessLog ∧
      (deleteFile s fid now).2.accessLog.length =
        s.accessLog.length + (if (deleteFile s fid now).1 then 1 else 0)) ∧
    (∀ (s : Simulator) (fid : String) (now : Nat),
      (readFile s fid now).2.accessLog.take s.accessLog.length = s.accessLog ∧
      (readFile s fid now).2.accessLog.length =
        s.accessLog.length + (if (readFile s fid now).1.isSome then 1 else 0)) ∧
    (∀ (s : Simulator) (sev : ℚ) (sh : List Nat → List Nat),
      (simulateCrash s sev sh).2.accessLog = s.accessLog) ∧
    (∀ s : Simulator, (defragment s).2.accessLog = s.accessLog) ∧
    (∀ (s : Simulator) (oracle : Nat → Bool) (now : Nat),
      (recoverCorruptedBlocks s oracle now).2.accessLog.take s.accessLog.length
        = s.accessLog ∧
      (recoverCorruptedBlocks s oracle now).2.accessLog.length =
        s.accessLog.length + s.blocks.countP (fun b => b.status == BlockStatus.corrupted)) :=
  ⟨createFile_log, createDirectory_log, deleteFile_log, readFile_log, simulateCrash_log,
   defragment_log, recover_log⟩

/-- `totalTime = seekTime + transferTime` for one log entry. -/
def entryOk (e : AccessLog) : Bool := e.totalTime == e.seekTime + e.transferTime

def exFileState : Simulator :=
  (createFile (initSimulator 8 4096 0) "f" 1 "root" .contiguous 0 "fid1").2

def dummyLog : AccessLog :=
  { timestamp := 0
    operation := ""
    fileId := ""
    fileName := ""
    blocks := []
    seekTime := 0
    transferTime := 0
    totalTime := 0
    success := false }

/-- Counterexample to claim C8: the entry appended by `deleteFile` has
`totalTime = 0.1` ms but `seekTime = transferTime = 0`, so
`totalTime ≠ seekTime + transferTime` (times in tenths of ms). -/
theorem c8_counterexample :
    ((deleteFile exFileState "fid1" 1).2.accessLog.getD 1 dummyLog).totalTime ≠
      ((deleteFile exFileState "fid1" 1).2.accessLog.getD 1 dummyLog).seekTime +
        ((deleteFile exFileState "fid1" 1).2.accessLog.getD 1 dummyLog).transferTime := by
  decide

/-- Claim C8 (amended): every entry appended by `createFile`, `readFile` or
`recoverCorruptedBlocks` satisfies `totalTime = seekTime + transferTime`; the
entry appended by `deleteFile` instead has seek 0, transfer 0 and total 0.1 ms
(1 tenth); the remaining operations append no entries. -/
theorem c8_log_timing :
    (∀ (s : Simulator) (name : String) (n : Nat) (pid : String) (m : AllocationMethod)
        (now : Nat) (nid : String),
      (((createFile s name n pid m now nid).2.accessLog.drop s.accessLog.length).all
        entryOk) = true) ∧
    (∀ (s : Simulator) (fid : String) (now : Nat),
      (((readFile s fid now).2.accessLog.drop s.accessLog.length).all entryOk) = true) ∧
    (∀ (s : Simulator) (oracle : Nat → Bool) (now : Nat),
      (((recoverCorruptedBlocks s oracle now).2.accessLog.drop s.accessLog.length).all
        entryOk) = true) ∧
    (∀ (s : Simulator) (fid : String) (now : Nat),
      (((deleteFile s fid now).2.accessLog.drop s.accessLog.length).all
        (fun e => (e.seekTime == 0) && (e.transferTime == 0) && (e.totalTime == 1))) = true) ∧
    (∀ (s : Simulator) (name pid : String) (now : Nat) (nid : String),
      ((createDirectory s name pid now nid).2.accessLog.drop s.accessLog.length) = []) ∧
    (∀ (s : Simulator) (sev : ℚ) (sh : List Nat → List Nat),
      ((simulateCrash s sev sh).2.accessLog.drop s.accessLog.length) = []) ∧
    (∀ s : Simulator, ((defragment s).2.accessLog.drop s.accessLog.length) = []) := by
  refine ⟨?_, ?_, ?_, ?_, ?_, ?_, ?_⟩
  · intro s name n pid m now nid
    by_cases h1 : (getFreeBlocksLinkedList s).length < n
    · simp [createFile, h1, List.drop_length]
    · by_cases h2 : (allocFor s n m).isEmpty = true
      · simp only [createFile]
        rw [if_neg h1]
        simp [h2, List.drop_length]
      · simp only [createFile]
        rw [if_neg h1]
        simp only [h2, Bool.false_eq_true, if_false]
        rw [List.drop_left]
        simp [entryOk]
  · intro s fid now
    cases hf : mapGet s.files fid with
    | none => simp [readFile, hf, List.drop_length]
    | some file =>
      simp only [readFile, hf]
      rw [List.drop_left]
      simp [entryOk]
  · intro s oracle now
    obtain ⟨es, h1, _, h3⟩ :=
      recoverAux_log s.blockSize oracle now s.blocks 0 s.files s.accessLog [] [] []
    show ((recoverAux s.blockSize oracle now s.blocks 0 s.files s.accessLog []
        [] []).accessLog.drop s.accessLog.length).all entryOk = true
    rw [h1, List.drop_left, List.all_eq_true]
    intro e he
    obtain ⟨e20, e10, e30⟩ := h3 e he
    simp [entryOk, e20, e10, e30]
  · intro s fid now
    cases hf : mapGet s.files fid with
    | none => simp [deleteFile, hf, List.drop_length]
    | some file =>
      by_cases hd : file.isDirectory = true
      · simp [deleteFile, hf, hd, List.drop_length]
      · simp only [deleteFile, hf]
        rw [if_neg hd]
        rw [List.drop_left]
        simp
  · intro s name pid now nid
    rw [createDirectory_log]
    exact List.drop_length _
  · intro s sev sh
    rw [simulateCrash_log]
    exact List.drop_length _
  · intro s
    rw [defragment_log]
    exact List.drop_length _
/-! ### C1: exactness of `recoverCorruptedBlocks` -/

theorem mem_mapUpdate {files : List (String × FileEntry)} {k : String}
    {g : FileEntry → FileEntry} {p' : String × FileEntry}
    (h : p' ∈ mapUpdate files k g) :
    ∃ p ∈ files, p'.1 = p.1 ∧
      ((p'.2 = p.2 ∧ p.1 ≠ k) ∨ (p.1 = k ∧ p'.2 = g p.2)) := by
  obtain ⟨p, hp, hmap⟩ := List.mem_map.mp h
  by_cases hb : (p.1 == k) = true
  · rw [if_pos hb] at hmap
    refine ⟨p, hp, ?_, Or.inr ⟨beq_iff_eq.mp hb, ?_⟩⟩
    · rw [← hmap]
    · rw [← hmap]
  · rw [if_neg hb] at hmap
    have hne : p.1 ≠ k := by simpa using hb
    exact ⟨p, hp, by rw [hmap], Or.inl ⟨by rw [hmap], hne⟩⟩

theorem recoverAux_no_corrupted (bSize : Nat) (oracle : Nat → Bool) (now : Nat) :
    ∀ (bs : List DiskBlock) (k : Nat) (files : List (String × FileEntry))
      (log : List AccessLog) (recd lost : List Nat) (aff : List String),
      ∀ b' ∈ (recoverAux bSize oracle now bs k files log recd lost aff).blocks,
        b'.status ≠ BlockStatus.corrupted := by
  intro bs
  induction bs with
  | nil =>
    intro k files log recd lost aff b' hb'
    simp [recoverAux] at hb'
  | cons b rest ih =>
    intro k files log recd lost aff b' hb'
    by_cases hc : (b.status == BlockStatus.corrupted) = true
    · by_cases ho : oracle k = true
      · simp only [recoverAux, hc, if_true, ho] at hb'
        rcases List.mem_cons.mp hb' with rfl | h
        · simp
        · exact ih _ _ _ _ _ _ b' h
      · have ho' : oracle k = false := by simpa using ho
        simp only [recoverAux, hc, if_true, ho', Bool.false_eq_true, if_false] at hb'
        rcases List.mem_cons.mp hb' with rfl | h
        · simp
        · exact ih _ _ _ _ _ _ b' h
    · have hc' : (b.status == BlockStatus.corrupted) = false := by simpa using hc
      simp only [recoverAux, hc', Bool.false_eq_true, if_false] at hb'
      rcases List.mem_cons.mp hb' with rfl | h
      · simpa using hc
      · exact ih _ _ _ _ _ _ b' h

theorem recoverAux_union (bSize : Nat) (oracle : Nat → Bool) (now : Nat) :
    ∀ (bs : List DiskBlock) (k : Nat) (files : List (String × FileEntry))
      (log : List AccessLog) (recd lost : List Nat) (aff : List String) (x : Nat),
      (x ∈ (recoverAux bSize oracle now bs k files log recd lost aff).recovered ∨
       x ∈ (recoverAux bSize oracle now bs k files log recd lost aff).lost) ↔
      (x ∈ recd ∨ x ∈ lost ∨
        x ∈ (bs.filter (fun b => b.status == BlockStatus.corrupted)).map DiskBlock.id) := by
  intro bs
  induction bs with
  | nil =>
    intro k files log recd lost aff x
    simp [recoverAux]
  | cons b rest ih =>
    intro k files log recd lost aff x
    by_cases hc : (b.status == BlockStatus.corrupted) = true
    · by_cases ho : oracle k = true
      · simp only [recoverAux, hc, if_true, ho]
        rw [ih]
        simp only [List.filter_cons, hc, if_true, List.map_cons, List.mem_cons,
          List.mem_append, List.mem_singleton]
        tauto
      · have ho' : oracle k = false := by simpa using ho
        simp only [recoverAux, hc, if_true, ho', Bool.false_eq_true, if_false]
        rw [ih]
        simp only [List.filter_cons, hc, if_true, List.map_cons, List.mem_cons,
          List.mem_append, List.mem_singleton]
        tauto
    · have hc' : (b.status == BlockStatus.corrupted) = false := by simpa using hc
      simp only [recoverAux, hc', Bool.false_eq_true, if_false]
      rw [ih]
      simp only [List.filter_cons, hc', Bool.false_eq_true, if_false]

theorem recoverAux_lost_unref (bSize : Nat) (oracle : Nat → Bool) (now : Nat) :
    ∀ (bs : List DiskBlock) (k : Nat) (files : List (String × FileEntry))
      (log : List AccessLog) (recd lost : List Nat) (aff : List String),
      (∀ b ∈ bs, b.status = BlockStatus.corrupted →
        ∀ p ∈ files, b.id ∈ p.2.blocks → b.fileId = some p.1) →
      (∀ x ∈ lost, ∀ p ∈ files, x ∉ p.2.blocks) →
      ∀ x ∈ (recoverAux bSize oracle now bs k files log recd lost aff).lost,
        ∀ p ∈ (recoverAux bSize oracle now bs k files log recd lost aff).files,
          x ∉ p.2.blocks := by
  intro bs
  induction bs with
  | nil =>
    intro k files log recd lost aff _ hacc x hx p hp
    simp only [recoverAux] at hx hp
    exact hacc x hx p hp
  | cons b rest ih =>
    intro k files log recd lost aff hrem hacc
    have hrem' : ∀ b' ∈ rest, b'.status = BlockStatus.corrupted →
        ∀ p ∈ files, b'.id ∈ p.2.blocks → b'.fileId = some p.1 :=
      fun b' hb' => hrem b' (List.mem_cons_of_mem b hb')
    by_cases hc : (b.status == BlockStatus.corrupted) = true
    · have hcp : b.status = BlockStatus.corrupted := beq_iff_eq.mp hc
      by_cases ho : oracle k = true
      · simp only [recoverAux, hc, if_true, ho]
        exact ih _ _ _ _ _ _ hrem' hacc
      · have ho' : oracle k = false := by simpa using ho
        simp only [recoverAux, hc, if_true, ho', Bool.false_eq_true, if_false]
        cases hfid : b.fileId with
        | none =>
          simp only [hfid]
          apply ih _ _ _ _ _ _ hrem'
          intro x hx p hp
          rcases List.mem_append.mp hx with hxl | hxb
          · exact hacc x hxl p hp
          · have hxeq : x = b.id := by simpa using hxb
            subst hxeq
            intro hmem
            have := hrem b (List.mem_cons_self b rest) hcp p hp hmem
            rw [hfid] at this
            exact Option.noConfusion this
        | some fid =>
          simp only [hfid]
          apply ih _ _ _ _ _ _
          · -- ownership invariant is preserved by shrinking block lists
            intro b' hb' hco p' hp' hmem
            obtain ⟨p, hp, hkey, hcase⟩ := mem_mapUpdate hp'
            have hsub : p'.2.blocks ⊆ p.2.blocks := by
              rcases hcase with ⟨hsame, _⟩ | ⟨_, hupd⟩
              · rw [hsame]
                exact fun y hy => hy
              · rw [hupd]
                intro y hy
                exact (List.mem_filter.mp hy).1
            rw [hkey]
            exact hrem' b' hb' hco p hp (hsub hmem)
          · -- accumulated lost ids reference no current file
            intro x hx p' hp'
            obtain ⟨p, hp, hkey, hcase⟩ := mem_mapUpdate hp'
            rcases List.mem_append.mp hx with hxl | hxb
            · intro hmem
              have hsub : p'.2.blocks ⊆ p.2.blocks := by
                rcases hcase with ⟨hsame, _⟩ | ⟨_, hupd⟩
                · rw [hsame]
                  exact fun y hy => hy
                · rw [hupd]
                  intro y hy
                  exact (List.mem_filter.mp hy).1
              exact hacc x hxl p hp (hsub hmem)
            · have hxeq : x = b.id := by simpa using hxb
              subst hxeq
              intro hmem
              rcases hcase with ⟨hsame, hne⟩ | ⟨hpk, hupd⟩
              · rw [hsame] at hmem
                have := hrem b (List.mem_cons_self b rest) hcp p hp hmem
                rw [hfid] at this
                exact hne (Option.some.inj this).symm
              · rw [hupd] at hmem
                have := (List.mem_filter.mp hmem).2
                simp at this
    · have hc' : (b.status == BlockStatus.corrupted) = false := by simpa using hc
      simp only [recoverAux, hc', Bool.false_eq_true, if_false]
      exact ih _ _ _ _ _ _ hrem' hacc

/-- Claim C1: for every engine state satisfying the documented ownership invariant
(every corrupted block is referenced only by the file named by its
`ownerFileId`), `recoverCorruptedBlocks` partitions exactly the previously
corrupted block ids into `recovered` and `lost`; afterwards no block is
corrupted, and no lost id is referenced by any remaining file. -/
theorem c1_recover_spec (s : Simulator) (oracle : Nat → Bool) (now : Nat)
    (hown : ∀ b ∈ s.blocks, b.status = BlockStatus.corrupted →
      ∀ p ∈ s.files, b.id ∈ p.2.blocks → b.fileId = some p.1) :
    (∀ x : Nat,
      (x ∈ (recoverCorruptedBlocks s oracle now).1.1 ∨
       x ∈ (recoverCorruptedBlocks s oracle now).1.2.1) ↔
      x ∈ (s.blocks.filter
        (fun b => b.status == BlockStatus.corrupted)).map DiskBlock.id) ∧
    (∀ b ∈ (recoverCorruptedBlocks s oracle now).2.blocks,
      b.status ≠ BlockStatus.corrupted) ∧
    (∀ x ∈ (recoverCorruptedBlocks s oracle now).1.2.1,
      ∀ p ∈ (recoverCorruptedBlocks s oracle now).2.files, x ∉ p.2.blocks) := by
  refine ⟨?_, ?_, ?_⟩
  · intro x
    have h := recoverAux_union s.blockSize oracle now s.blocks 0 s.files s.accessLog
      [] [] [] x
    simpa using h
  · intro b hb
    exact recoverAux_no_corrupted s.blockSize oracle now s.blocks 0 s.files s.accessLog
      [] [] [] b hb
  · exact recoverAux_lost_unref s.blockSize oracle now s.blocks 0 s.files s.accessLog
      [] [] [] hown (by simp)

def exC1 : Simulator :=
  { exFileState with
    blocks := updateAt exFileState.blocks 4 (fun b =>
      { b with status := BlockStatus.corrupted }) }

theorem c1_recover_spec_witness :
    (∀ b ∈ exC1.blocks, b.status = BlockStatus.corrupted →
      ∀ p ∈ exC1.files, b.id ∈ p.2.blocks → b.fileId = some p.1) ∧
    ((∀ x : Nat,
      (x ∈ (recoverCorruptedBlocks exC1 (fun _ => false) 2).1.1 ∨
       x ∈ (recoverCorruptedBlocks exC1 (fun _ => false) 2).1.2.1) ↔
      x ∈ (exC1.blocks.filter
        (fun b => b.status == BlockStatus.corrupted)).map DiskBlock.id) ∧
    (∀ b ∈ (recoverCorruptedBlocks exC1 (fun _ => false) 2).2.blocks,
      b.status ≠ BlockStatus.corrupted) ∧
    (∀ x ∈ (recoverCorruptedBlocks exC1 (fun _ => false) 2).1.2.1,
      ∀ p ∈ (recoverCorruptedBlocks exC1 (fun _ => false) 2).2.files,
        x ∉ p.2.blocks)) :=
  ⟨by decide, c1_recover_spec exC1 (fun _ => false) 2 (by decide)⟩
/-! ### C6: infrastructure lemmas -/

theorem updateAt_length : ∀ (l : List α) (n : Nat) (f : α → α),
    (updateAt l n f).length = l.length := by
  intro l
  induction l with
  | nil => intro n f; rfl
  | cons a as ih =>
    intro n f
    cases n with
    | zero => rfl
    | succ n' =>
      simp only [updateAt, List.length_cons]
      rw [ih]

theorem updateAt_getElem_ne : ∀ (l : List α) (n : Nat) (f : α → α) (m : Nat),
    m ≠ n → (updateAt l n f)[m]? = l[m]? := by
  intro l
  induction l with
  | nil => intro n f m _; rfl
  | cons a as ih =>
    intro n f m hne
    cases n with
    | zero =>
      cases m with
      | zero => exact absurd rfl hne
      | succ m' => simp [updateAt]
    | succ n' =>
      cases m with
      | zero => simp [updateAt]
      | succ m' =>
        simp only [updateAt, List.getElem?_cons_succ]
        exact ih n' f m' (fun h => hne (congrArg Nat.succ h))

theorem updateAt_getElem_self : ∀ (l : List α) (n : Nat) (f : α → α) (b : α),
    l[n]? = some b → (updateAt l n f)[n]? = some (f b) := by
  intro l
  induction l with
  | nil => intro n f b h; simp at h
  | cons a as ih =>
    intro n f b h
    cases n with
    | zero =>
      simp only [List.getElem?_cons_zero, Option.some.injEq] at h
      simp [updateAt, h]
    | succ n' =>
      simp only [List.getElem?_cons_succ] at h
      simp only [updateAt, List.getElem?_cons_succ]
      exact ih n' f b h

theorem writeBlocks_length (snap : Nat → DiskBlock) : ∀ (obs : List Nat) (nf : Nat)
    (bs : List DiskBlock), (writeBlocks snap obs nf bs).length = bs.length := by
  intro obs
  induction obs with
  | nil => intro nf bs; rfl
  | cons o os ih =>
    intro nf bs
    simp only [writeBlocks]
    rw [ih, updateAt_length]

theorem writeBlocks_getElem_lt (snap : Nat → DiskBlock) : ∀ (obs : List Nat) (nf : Nat)
    (bs : List DiskBlock) (i : Nat), i < nf →
    (writeBlocks snap obs nf bs)[i]? = bs[i]? := by
  intro obs
  induction obs with
  | nil => intro nf bs i _; rfl
  | cons o os ih =>
    intro nf bs i hi
    simp only [writeBlocks]
    rw [ih (nf + 1) _ i (by omega), updateAt_getElem_ne _ _ _ _ (by omega)]

theorem writeBlocks_getElem_ge (snap : Nat → DiskBlock) : ∀ (obs : List Nat) (nf : Nat)
    (bs : List DiskBlock) (i : Nat), nf + obs.length ≤ i →
    (writeBlocks snap obs nf bs)[i]? = bs[i]? := by
  intro obs
  induction obs with
  | nil => intro nf bs i _; rfl
  | cons o os ih =>
    intro nf bs i hi
    simp only [List.length_cons] at hi
    simp only [writeBlocks]
    rw [ih (nf + 1) _ i (by omega), updateAt_getElem_ne _ _ _ _ (by omega)]

theorem writeBlocks_getElem_in (snap : Nat → DiskBlock) : ∀ (obs : List Nat) (nf : Nat)
    (bs : List DiskBlock) (i : Nat), nf ≤ i → i < nf + obs.length → i < bs.length →
    ∃ o ∈ obs, (writeBlocks snap obs nf bs)[i]? =
      some { id := i, status := (snap o).status, fileId := (snap o).fileId,
             data := (snap o).data } := by
  intro obs
  induction obs with
  | nil =>
    intro nf bs i h1 h2 _
    simp only [List.length_nil, Nat.add_zero] at h2
    omega
  | cons o os ih =>
    intro nf bs i h1 h2 h3
    rcases Nat.eq_or_lt_of_le h1 with rfl | hlt
    · refine ⟨o, List.mem_cons_self o os, ?_⟩
      simp only [writeBlocks]
      rw [writeBlocks_getElem_lt snap os (nf + 1) _ nf (by omega)]
      exact updateAt_getElem_self _ _ _ _ (List.getElem?_eq_getElem h3)
    · simp only [List.length_cons] at h2
      obtain ⟨o', ho', h⟩ := ih (nf + 1)
        (updateAt bs nf (fun _ =>
          { id := nf, status := (snap o).status, fileId := (snap o).fileId,
            data := (snap o).data })) i hlt (by omega)
        (by rw [updateAt_length]; exact h3)
      exact ⟨o', List.mem_cons_of_mem o ho', h⟩

theorem clearFrom_length : ∀ (bs : List DiskBlock) (j : Nat),
    (clearFrom j bs).length = bs.length := by
  intro bs
  induction bs with
  | nil => intro j; rfl
  | cons b t ih =>
    intro j
    simp only [clearFrom, List.length_cons]
    rw [ih]

theorem clearFrom_getElem : ∀ (bs : List DiskBlock) (j i : Nat),
    (clearFrom j bs)[i]? = (bs[i]?).map (fun b =>
      if j + i < 4 then b
      else { id := j + i, status := BlockStatus.free, fileId := none, data := "" }) := by
  intro bs
  induction bs with
  | nil => intro j i; rfl
  | cons b t ih =>
    intro j i
    cases i with
    | zero => simp [clearFrom]
    | succ i' =>
      simp only [clearFrom, List.getElem?_cons_succ]
      rw [ih (j + 1) i']
      have hj : j + 1 + i' = j + (i' + 1) := by omega
      rw [hj]

theorem sortInsert_perm (x : String × List Nat) : ∀ (l : List (String × List Nat)),
    (sortInsert x l).Perm (x :: l) := by
  intro l
  induction l with
  | nil => exact List.Perm.refl _
  | cons y ys ih =>
    by_cases hc : y.2.headD 0 ≤ x.2.headD 0
    · simp only [sortInsert, hc, if_true]
      exact (ih.cons y).trans (List.Perm.swap x y ys)
    · simp only [sortInsert, hc, if_false]
      exact List.Perm.refl _

theorem sortByFirstBlock_perm : ∀ (l : List (String × List Nat)),
    (sortByFirstBlock l).Perm l := by
  intro l
  induction l with
  | nil => exact List.Perm.refl _
  | cons x xs ih =>
    exact (sortInsert_perm x (sortByFirstBlock xs)).trans (ih.cons x)

theorem mapUpdate_map_fst (files : List (String × FileEntry)) (k : String)
    (g : FileEntry → FileEntry) :
    (mapUpdate files k g).map Prod.fst = files.map Prod.fst := by
  unfold mapUpdate
  rw [List.map_map]
  apply List.map_congr_left
  intro p _
  by_cases hb : p.1 = k
  · simp [hb]
  · simp [hb]

theorem mapUpdate_mem_of_ne {files : List (String × FileEntry)} {k : String}
    {g : FileEntry → FileEntry} {p : String × FileEntry}
    (hp : p ∈ files) (hne : p.1 ≠ k) : p ∈ mapUpdate files k g := by
  unfold mapUpdate
  have hbeq : (p.1 == k) = false := by simpa using hne
  have := List.mem_map_of_mem (fun q => if q.1 == k then (q.1, g q.2) else q) hp
  simpa only [hbeq, Bool.false_eq_true, if_false] using this

theorem mapUpdate_mem_self {files : List (String × FileEntry)} {k : String}
    {g : FileEntry → FileEntry} {p : String × FileEntry}
    (hp : p ∈ files) (heq : p.1 = k) : (p.1, g p.2) ∈ mapUpdate files k g := by
  unfold mapUpdate
  have hbeq : (p.1 == k) = true := by simpa using heq
  have := List.mem_map_of_mem (fun q => if q.1 == k then (q.1, g q.2) else q) hp
  simpa only [hbeq, if_true] using this

theorem mapGet_isSome_of_key {files : List (String × FileEntry)} {k : String}
    (h : ∃ p ∈ files, p.1 = k) : ∃ e, mapGet files k = some e := by
  unfold mapGet
  cases hf : List.find? (fun p => p.1 == k) files with
  | none =>
    exfalso
    obtain ⟨p, hp, hpk⟩ := h
    rw [List.find?_eq_none] at hf
    exact hf p hp (by simpa using hpk)
  | some p => exact ⟨p.2, rfl⟩

theorem filterMap_if_eq (l : List α) (c : α → Bool) (f : α → β) :
    l.filterMap (fun a => if c a then some (f a) else none) = (l.filter c).map f := by
  induction l with
  | nil => rfl
  | cons a t ih =>
    by_cases hc : c a = true
    · simp [List.filterMap_cons, List.filter_cons, hc, ih]
    · simp [List.filterMap_cons, List.filter_cons, hc, ih]

theorem foldl_insertDistinct_mem [BEq α] {x : α} : ∀ (l acc : List α),
    x ∈ l.foldl insertDistinct acc → x ∈ acc ∨ x ∈ l := by
  intro l
  induction l with
  | nil => intro acc h; exact Or.inl h
  | cons a t ih =>
    intro acc h
    rcases ih (insertDistinct acc a) h with h' | h'
    · unfold insertDistinct at h'
      by_cases hm : acc.contains a = true
      · rw [if_pos hm] at h'
        exact Or.inl h'
      · rw [if_neg hm] at h'
        rcases List.mem_append.mp h' with h2 | h2
        · exact Or.inl h2
        · have : x = a := by simpa using h2
          subst this
          exact Or.inr (List.mem_cons_self x t)
    · exact Or.inr (List.mem_cons_of_mem a h')

theorem referencedList_spec {s : Simulator} {x : Nat} (h : x ∈ referencedList s) :
    ∃ p ∈ s.files, x ∈ p.2.blocks := by
  unfold referencedList at h
  suffices h' : ∀ (files : List (String × FileEntry)) (acc : List Nat),
      x ∈ files.foldl (fun acc p => p.2.blocks.foldl insertDistinct acc) acc →
      x ∈ acc ∨ ∃ p ∈ files, x ∈ p.2.blocks by
    rcases h' s.files [] h with h2 | h2
    · simp at h2
    · exact h2
  intro files
  induction files with
  | nil => intro acc h2; exact Or.inl h2
  | cons p t ih =>
    intro acc h2
    rcases ih _ h2 with h3 | h3
    · rcases foldl_insertDistinct_mem _ _ h3 with h4 | h4
      · exact Or.inl h4
      · exact Or.inr ⟨p, List.mem_cons_self p t, h4⟩
    · obtain ⟨q, hq, hx⟩ := h3
      exact Or.inr ⟨q, List.mem_cons_of_mem _ hq, hx⟩

/-- Total number of blocks in a `fileBlocks` list. -/
def sumLen (S : List (String × List Nat)) : Nat := (S.map (fun fb => fb.2.length)).sum
theorem mapGet_eq_some_elim {files : List (String × FileEntry)} {k : String} {e : FileEntry}
    (h : mapGet files k = some e) : ∃ q ∈ files, q.1 = k ∧ q.2 = e := by
  unfold mapGet at h
  cases hf : List.find? (fun p => p.1 == k) files with
  | none =>
    rw [hf] at h
    simp at h
  | some q =>
    rw [hf] at h
    refine ⟨q, List.mem_of_find?_eq_some hf, ?_, ?_⟩
    · have hq := List.find?_some hf
      have hq' : (q.1 == k) = true := by simpa using hq
      exact beq_iff_eq.mp hq'
    · simpa using h

theorem defragAux_spec (snap : Nat → DiskBlock) :
    ∀ (S : List (String × List Nat)) (st : DefragState),
    4 ≤ st.nextFree →
    sumLen S ≤ st.blocks.length - st.nextFree →
    (∀ (i : Nat) (b : DiskBlock), st.blocks[i]? = some b → b.id = i) →
    (∀ (i : Nat) (b : DiskBlock), st.nextFree ≤ i → st.blocks[i]? = some b →
      b.status = BlockStatus.free) →
    (S.map Prod.fst).Nodup →
    (∀ fb ∈ S, (∃ p ∈ st.files, p.1 = fb.1) ∧
      ∀ x ∈ fb.2, (snap x).status = BlockStatus.used ∧ (snap x).fileId = some fb.1) →
    (∀ p ∈ st.files, p.1 ∉ S.map Prod.fst →
      ∀ x ∈ p.2.blocks, x < st.nextFree ∧ ∃ b : DiskBlock, st.blocks[x]? = some b ∧
        b.status = BlockStatus.used ∧ b.fileId = some p.1) →
    (∀ (i : Nat) (b : DiskBlock), st.blocks[i]? = some b → b.status = BlockStatus.used →
      ∃ p ∈ st.files, p.1 ∉ S.map Prod.fst ∧ i ∈ p.2.blocks) →
    (∀ p ∈ st.files, p.2.id = p.1) →
    ((∀ p ∈ (defragAux snap S st).files, ∀ x ∈ p.2.blocks,
        ∃ b : DiskBlock, (defragAux snap S st).blocks[x]? = some b ∧
          b.status = BlockStatus.used ∧ b.fileId = some p.1) ∧
     (∀ (i : Nat) (b : DiskBlock), (defragAux snap S st).blocks[i]? = some b →
        b.status = BlockStatus.used →
        ∃ p ∈ (defragAux snap S st).files, i ∈ p.2.blocks) ∧
     (∀ p ∈ (defragAux snap S st).files, p.2.id = p.1) ∧
     (∀ (i : Nat) (b : DiskBlock), (defragAux snap S st).blocks[i]? = some b →
        b.id = i)) := by
  intro S
  induction S with
  | nil =>
    intro st h4 hcap hids hcler hSnd hSf hgood hused hidf
    simp only [defragAux]
    refine ⟨?_, ?_, hidf, hids⟩
    · intro p hp x hx
      obtain ⟨_, b, hb, hbs, hbo⟩ := hgood p hp (by simp) x hx
      exact ⟨b, hb, hbs, hbo⟩
    · intro i b hb hbs
      obtain ⟨p, hp, _, hmem⟩ := hused i b hb hbs
      exact ⟨p, hp, hmem⟩
  | cons hd rest ih =>
    obtain ⟨fid, obs⟩ := hd
    intro st h4 hcap hids hcler hSnd hSf hgood hused hidf
    obtain ⟨e, he⟩ := mapGet_isSome_of_key (hSf (fid, obs) (List.mem_cons_self _ _)).1
    simp only [defragAux, he]
    have hobs : ∀ x ∈ obs, (snap x).status = BlockStatus.used ∧ (snap x).fileId = some fid :=
      (hSf (fid, obs) (List.mem_cons_self _ _)).2
    have hfidrest : fid ∉ rest.map Prod.fst := by
      simp only [List.map_cons, List.nodup_cons] at hSnd
      exact hSnd.1
    have hSnd' : (rest.map Prod.fst).Nodup := by
      simp only [List.map_cons, List.nodup_cons] at hSnd
      exact hSnd.2
    have hsum : obs.length + sumLen rest ≤ st.blocks.length - st.nextFree := by
      simpa [sumLen] using hcap
    have hlenW : (writeBlocks snap obs st.nextFree st.blocks).length = st.blocks.length :=
      writeBlocks_length snap obs st.nextFree st.blocks
    have g1 : 4 ≤ st.nextFree + obs.length := by omega
    have g2 : sumLen rest ≤
        (writeBlocks snap obs st.nextFree st.blocks).length - (st.nextFree + obs.length) := by
      rw [hlenW]
      omega
    have g3 : ∀ (i : Nat) (b : DiskBlock),
        (writeBlocks snap obs st.nextFree st.blocks)[i]? = some b → b.id = i := by
      intro i b hb
      by_cases hi : i < st.nextFree
      · rw [writeBlocks_getElem_lt snap _ _ _ _ hi] at hb
        exact hids i b hb
      · by_cases hi2 : i < st.nextFree + obs.length
        · have hilen : i < st.blocks.length := by
            have := (List.getElem?_eq_some.mp hb).1
            rwa [hlenW] at this
          obtain ⟨o, ho, heq⟩ := writeBlocks_getElem_in snap obs st.nextFree st.blocks i
            (by omega) hi2 hilen
          have hbe := (hb.symm.trans heq)
          simp only [Option.some.injEq] at hbe
          rw [hbe]
        · rw [writeBlocks_getElem_ge snap _ _ _ _ (by omega)] at hb
          exact hids i b hb
    have g4 : ∀ (i : Nat) (b : DiskBlock), st.nextFree + obs.length ≤ i →
        (writeBlocks snap obs st.nextFree st.blocks)[i]? = some b →
        b.status = BlockStatus.free := by
      intro i b hi hb
      rw [writeBlocks_getElem_ge snap _ _ _ _ hi] at hb
      exact hcler i b (by omega) hb
    have g6 : ∀ fb ∈ rest,
        (∃ p ∈ mapUpdate st.files fid (fun f =>
          { f with blocks := List.range' st.nextFree obs.length }), p.1 = fb.1) ∧
        ∀ x ∈ fb.2, (snap x).status = BlockStatus.used ∧ (snap x).fileId = some fb.1 := by
      intro fb hfb
      refine ⟨?_, (hSf fb (List.mem_cons_of_mem _ hfb)).2⟩
      obtain ⟨p, hp, hpk⟩ := (hSf fb (List.mem_cons_of_mem _ hfb)).1
      have hkmem : fb.1 ∈ (mapUpdate st.files fid (fun f =>
          { f with blocks := List.range' st.nextFree obs.length })).map Prod.fst := by
        rw [mapUpdate_map_fst]
        exact hpk ▸ List.mem_map_of_mem Prod.fst hp
      obtain ⟨p', hp', hpk'⟩ := List.mem_map.mp hkmem
      exact ⟨p', hp', hpk'⟩
    have g7 : ∀ p' ∈ mapUpdate st.files fid (fun f =>
          { f with blocks := List.range' st.nextFree obs.length }),
        p'.1 ∉ rest.map Prod.fst →
        ∀ x ∈ p'.2.blocks, x < st.nextFree + obs.length ∧
          ∃ b : DiskBlock, (writeBlocks snap obs st.nextFree st.blocks)[x]? = some b ∧
            b.status = BlockStatus.used ∧ b.fileId = some p'.1 := by
      intro p' hp' hnotin x hx
      obtain ⟨p, hp, hkey, hcase⟩ := mem_mapUpdate hp'
      rcases hcase with ⟨hsame, hne⟩ | ⟨hpk, hupd⟩
      · have hnotS : p.1 ∉ ((fid, obs) :: rest).map Prod.fst := by
          simp only [List.map_cons, List.mem_cons, not_or]
          exact ⟨hne, by rw [← hkey]; exact hnotin⟩
        have hx' : x ∈ p.2.blocks := by
          rw [← hsame]
          exact hx
        obtain ⟨hxlt, b, hb, hbs, hbo⟩ := hgood p hp hnotS x hx'
        refine ⟨by omega, b, ?_, hbs, by rw [hkey]; exact hbo⟩
        rw [writeBlocks_getElem_lt snap _ _ _ _ hxlt]
        exact hb
      · have hx' : x ∈ List.range' st.nextFree obs.length := by
          rw [hupd] at hx
          exact hx
        rw [List.mem_range'_1] at hx'
        refine ⟨by omega, ?_⟩
        have hxlen : x < st.blocks.length := by omega
        obtain ⟨o, ho, heq⟩ := writeBlocks_getElem_in snap obs st.nextFree st.blocks x
          hx'.1 hx'.2 hxlen
        obtain ⟨hos, hof⟩ := hobs o ho
        refine ⟨_, heq, hos, ?_⟩
        show (snap o).fileId = some p'.1
        rw [hof, hkey, hpk]
    have g8 : ∀ (i : Nat) (b : DiskBlock),
        (writeBlocks snap obs st.nextFree st.blocks)[i]? = some b →
        b.status = BlockStatus.used →
        ∃ p ∈ mapUpdate st.files fid (fun f =>
          { f with blocks := List.range' st.nextFree obs.length }),
          p.1 ∉ rest.map Prod.fst ∧ i ∈ p.2.blocks := by
      intro i b hb hbs
      by_cases hi : i < st.nextFree
      · rw [writeBlocks_getElem_lt snap _ _ _ _ hi] at hb
        obtain ⟨p, hp, hnot, hmem⟩ := hused i b hb hbs
        simp only [List.map_cons, List.mem_cons, not_or] at hnot
        exact ⟨p, mapUpdate_mem_of_ne hp hnot.1, hnot.2, hmem⟩
      · by_cases hi2 : i < st.nextFree + obs.length
        · obtain ⟨q, hqmem, hqk, _⟩ := mapGet_eq_some_elim he
          refine ⟨(q.1, { q.2 with blocks := List.range' st.nextFree obs.length }),
            mapUpdate_mem_self hqmem hqk, ?_, ?_⟩
          · rw [hqk]
            exact hfidrest
          · show i ∈ List.range' st.nextFree obs.length
            rw [List.mem_range'_1]
            omega
        · rw [writeBlocks_getElem_ge snap _ _ _ _ (by omega)] at hb
          have hfree := hcler i b (by omega) hb
          rw [hfree] at hbs
          exact absurd hbs (by simp)
    have g9 : ∀ p' ∈ mapUpdate st.files fid (fun f =>
          { f with blocks := List.range' st.nextFree obs.length }), p'.2.id = p'.1 := by
      intro p' hp'
      obtain ⟨p, hp, hkey, hcase⟩ := mem_mapUpdate hp'
      rcases hcase with ⟨hsame, _⟩ | ⟨_, hupd⟩
      · rw [hsame, hkey]
        exact hidf p hp
      · rw [hupd, hkey]
        exact hidf p hp
    exact ih _ g1 g2 g3 g4 hSnd' g6 g7 g8 g9
/-- Decidable form of the documented forward/backward reference invariant: every
block id referenced by a file lies at index ≥ 4, exists on the disk, has status
`Used` or `Corrupted`, and carries the owning file's id as `ownerFileId`. -/
def refOk (s : Simulator) : Bool :=
  s.files.all (fun p => p.2.blocks.all (fun x =>
    decide (4 ≤ x) &&
    (match s.blocks[x]? with
     | some b => ((b.status == BlockStatus.used) || (b.status == BlockStatus.corrupted))
         && (b.fileId == some p.2.id)
     | none => false)))

theorem refOk_spec {s : Simulator} (h : refOk s = true) :
    ∀ p ∈ s.files, ∀ x ∈ p.2.blocks, 4 ≤ x ∧
      ∃ b : DiskBlock, s.blocks[x]? = some b ∧
        (b.status = BlockStatus.used ∨ b.status = BlockStatus.corrupted) ∧
        b.fileId = some p.2.id := by
  intro p hp x hx
  rw [refOk, List.all_eq_true] at h
  have h2 := h p hp
  rw [List.all_eq_true] at h2
  have h3 := h2 x hx
  rw [Bool.and_eq_true] at h3
  obtain ⟨h4, hm⟩ := h3
  refine ⟨by simpa using h4, ?_⟩
  cases ho : s.blocks[x]? with
  | none =>
    rw [ho] at hm
    simp at hm
  | some b =>
    rw [ho] at hm
    simp only [Bool.and_eq_true, Bool.or_eq_true, beq_iff_eq] at hm
    exact ⟨b, rfl, hm.1, hm.2⟩

theorem ids_spec {s : Simulator}
    (h : ∀ i ∈ List.range s.blocks.length, s.blocks[i]?.map DiskBlock.id = some i) :
    ∀ (i : Nat) (b : DiskBlock), s.blocks[i]? = some b → b.id = i := by
  intro i b hb
  have hi : i < s.blocks.length := (List.getElem?_eq_some.mp hb).1
  have h2 := h i (List.mem_range.mpr hi)
  rw [hb] at h2
  simpa using h2
/-- Claim C6: on every engine state satisfying the documented invariants
(block ids match indices, unique file keys, entry ids match keys, directories
own no blocks, per-file block lists are duplicate-free, the first four blocks
are reserved, and every referenced block is a live non-reserved block owned by
its referencing file) in which no block is corrupted, `defragment()` followed by
`runFsck()` yields empty `orphanBlocks`, `missingBlocks` and
`inconsistentFiles`. -/
theorem c6_defragment_fsck_clean (s : Simulator)
    (hnc : ∀ b ∈ s.blocks, b.status ≠ BlockStatus.corrupted)
    (hids0 : ∀ i ∈ List.range s.blocks.length, s.blocks[i]?.map DiskBlock.id = some i)
    (hkeys : (s.files.map Prod.fst).Nodup)
    (hidf : ∀ p ∈ s.files, p.2.id = p.1)
    (hdir : ∀ p ∈ s.files, p.2.isDirectory = true → p.2.blocks = [])
    (hnod : ∀ p ∈ s.files, p.2.blocks.Nodup)
    (hres : ∀ b ∈ s.blocks.take 4, b.status = BlockStatus.reserved)
    (href0 : refOk s = true) :
    runFsck (defragment s).2 = ⟨[], [], []⟩ := by
  have hidsQ := ids_spec hids0
  have href := refOk_spec href0
  have hF : fileBlocksOf s = (s.files.filter (fun p =>
      p.2.isDirectory == false && !p.2.blocks.isEmpty)).map (fun p => (p.2.id, p.2.blocks)) :=
    filterMap_if_eq s.files (fun p => p.2.isDirectory == false && !p.2.blocks.isEmpty)
      (fun p => (p.2.id, p.2.blocks))
  have hFmem : ∀ fb ∈ fileBlocksOf s, ∃ p ∈ s.files,
      p.2.isDirectory = false ∧ p.2.blocks ≠ [] ∧ fb = (p.2.id, p.2.blocks) := by
    intro fb hfb
    rw [hF] at hfb
    obtain ⟨p, hpf, hfb'⟩ := List.mem_map.mp hfb
    have hpmem := List.mem_of_mem_filter hpf
    have hc := List.of_mem_filter hpf
    simp only [Bool.and_eq_true, beq_iff_eq, Bool.not_eq_true', List.isEmpty_eq_false] at hc
    exact ⟨p, hpmem, hc.1, hc.2, hfb'.symm⟩
  have hFmem' : ∀ p ∈ s.files, p.2.isDirectory = false → p.2.blocks ≠ [] →
      (p.2.id, p.2.blocks) ∈ fileBlocksOf s := by
    intro p hp hd hb
    rw [hF]
    refine List.mem_map_of_mem _ (List.mem_filter.mpr ⟨hp, ?_⟩)
    simp [hd, hb]
  have hperm : (sortByFirstBlock (fileBlocksOf s)).Perm (fileBlocksOf s) :=
    sortByFirstBlock_perm _
  have hkeysF : ((fileBlocksOf s).map Prod.fst).Nodup := by
    rw [hF, List.map_map]
    have hcongr : (s.files.filter (fun p =>
        p.2.isDirectory == false && !p.2.blocks.isEmpty)).map
          (Prod.fst ∘ (fun p => (p.2.id, p.2.blocks))) =
        (s.files.filter (fun p =>
          p.2.isDirectory == false && !p.2.blocks.isEmpty)).map Prod.fst :=
      List.map_congr_left (fun p hp => hidf p (List.mem_of_mem_filter hp))
    rw [hcongr]
    exact List.Nodup.sublist (List.Sublist.map Prod.fst (List.filter_sublist _)) hkeys
  have hkeysS : ((sortByFirstBlock (fileBlocksOf s)).map Prod.fst).Nodup :=
    ((hperm.map Prod.fst).nodup_iff).mpr hkeysF
  have hsnapfact : ∀ p ∈ s.files, ∀ x ∈ p.2.blocks,
      (snapshotOf s.blocks x).status = BlockStatus.used ∧
      (snapshotOf s.blocks x).fileId = some p.2.id ∧ 4 ≤ x ∧ x < s.blocks.length := by
    intro p hp x hx
    obtain ⟨h4, b, hb, hsc, ho⟩ := href p hp x hx
    have hbmem : b ∈ s.blocks := List.mem_iff_getElem?.mpr ⟨x, hb⟩
    have husd : b.status = BlockStatus.used := by
      rcases hsc with h | h
      · exact h
      · exact absurd h (hnc b hbmem)
    have hsnapb : snapshotOf s.blocks x = b := by
      unfold snapshotOf
      rw [List.getD_eq_getElem?_getD, hb]
      rfl
    have hxlen : x < s.blocks.length := (List.getElem?_eq_some.mp hb).1
    rw [hsnapb]
    exact ⟨husd, ho, h4, hxlen⟩
  -- capacity bound
  have hLdef : sumLen (fileBlocksOf s) =
      (((fileBlocksOf s).map Prod.snd).flatten).length := by
    rw [List.length_flatten, List.map_map]
    rfl
  have hLmem : ∀ x ∈ ((fileBlocksOf s).map Prod.snd).flatten,
      ∃ p ∈ s.files, x ∈ p.2.blocks := by
    intro x hx
    obtain ⟨l, hl, hxl⟩ := List.mem_flatten.mp hx
    obtain ⟨fb, hfb, hfbl⟩ := List.mem_map.mp hl
    obtain ⟨p, hp, _, _, hfbe⟩ := hFmem fb hfb
    refine ⟨p, hp, ?_⟩
    rw [← hfbl, hfbe] at hxl
    exact hxl
  have hLnodup : (((fileBlocksOf s).map Prod.snd).flatten).Nodup := by
    rw [List.nodup_flatten]
    constructor
    · intro l hl
      obtain ⟨fb, hfb, hfbl⟩ := List.mem_map.mp hl
      obtain ⟨p, hp, _, _, hfbe⟩ := hFmem fb hfb
      rw [← hfbl, hfbe]
      exact hnod p hp
    · have hpw0 : s.files.Pairwise (fun p q => p.1 ≠ q.1) := List.pairwise_map.mp hkeys
      have hpwf := List.Pairwise.sublist (List.filter_sublist
        (p := fun p => p.2.isDirectory == false && !p.2.blocks.isEmpty) s.files) hpw0
      have hpwd : (s.files.filter (fun p =>
          p.2.isDirectory == false && !p.2.blocks.isEmpty)).Pairwise
            (fun p q => List.Disjoint p.2.blocks q.2.blocks) := by
        refine List.Pairwise.imp_of_mem ?_ hpwf
        intro p q hp hq hne x hxp hxq
        obtain ⟨_, b, hb, _, hop⟩ := href p (List.mem_of_mem_filter hp) x hxp
        obtain ⟨_, b', hb', _, hoq⟩ := href q (List.mem_of_mem_filter hq) x hxq
        have hbb : b = b' := by
          have := hb.symm.trans hb'
          simpa using this
        apply hne
        have : p.2.id = q.2.id := by
          rw [hbb] at hop
          have := hop.symm.trans hoq
          simpa using this
        rw [← hidf p (List.mem_of_mem_filter hp), ← hidf q (List.mem_of_mem_filter hq)]
        exact this
      rw [hF, List.map_map]
      exact List.pairwise_map.mpr hpwd
  have hLsub : ((fileBlocksOf s).map Prod.snd).flatten ⊆
      List.range' 4 (s.blocks.length - 4) := by
    intro x hx
    obtain ⟨p, hp, hxp⟩ := hLmem x hx
    obtain ⟨h4, b, hb, _, _⟩ := href p hp x hxp
    have hxlen : x < s.blocks.length := (List.getElem?_eq_some.mp hb).1
    rw [List.mem_range'_1]
    omega
  have hcap : sumLen (sortByFirstBlock (fileBlocksOf s)) ≤ s.blocks.length - 4 := by
    have hps : sumLen (sortByFirstBlock (fileBlocksOf s)) = sumLen (fileBlocksOf s) := by
      unfold sumLen
      exact (hperm.map (fun fb => fb.2.length)).sum_eq
    rw [hps, hLdef]
    have hsp := List.Nodup.subperm hLnodup hLsub
    have := List.Subperm.length_le hsp
    simpa using this
  -- hypotheses of the rebuild lemma at the initial (cleared) state
  have hids0' : ∀ (i : Nat) (b : DiskBlock), (clearFrom 0 s.blocks)[i]? = some b →
      b.id = i := by
    intro i b hb
    rw [clearFrom_getElem] at hb
    cases hob : s.blocks[i]? with
    | none =>
      rw [hob] at hb
      simp at hb
    | some ob =>
      rw [hob] at hb
      have hbeq : (if 0 + i < 4 then ob
          else { id := 0 + i, status := BlockStatus.free, fileId := none, data := "" }) = b := by
        simpa using hb
      by_cases hi : i < 4
      · rw [if_pos (by omega)] at hbeq
        rw [← hbeq]
        exact hidsQ i ob hob
      · rw [if_neg (by omega)] at hbeq
        rw [← hbeq]
        simp
  have hcler0 : ∀ (i : Nat) (b : DiskBlock), 4 ≤ i → (clearFrom 0 s.blocks)[i]? = some b →
      b.status = BlockStatus.free := by
    intro i b hi hb
    rw [clearFrom_getElem] at hb
    cases hob : s.blocks[i]? with
    | none =>
      rw [hob] at hb
      simp at hb
    | some ob =>
      rw [hob] at hb
      have hbeq : (if 0 + i < 4 then ob
          else { id := 0 + i, status := BlockStatus.free, fileId := none, data := "" }) = b := by
        simpa using hb
      rw [if_neg (by omega)] at hbeq
      rw [← hbeq]
  have hused0 : ∀ (i : Nat) (b : DiskBlock), (clearFrom 0 s.blocks)[i]? = some b →
      b.status = BlockStatus.used →
      ∃ p ∈ s.files, p.1 ∉ (sortByFirstBlock (fileBlocksOf s)).map Prod.fst ∧
        i ∈ p.2.blocks := by
    intro i b hb hbs
    exfalso
    rw [clearFrom_getElem] at hb
    cases hob : s.blocks[i]? with
    | none =>
      rw [hob] at hb
      simp at hb
    | some ob =>
      rw [hob] at hb
      have hbeq : (if 0 + i < 4 then ob
          else { id := 0 + i, status := BlockStatus.free, fileId := none, data := "" }) = b := by
        simpa using hb
      by_cases hi : i < 4
      · rw [if_pos (by omega)] at hbeq
        have hobmem : ob ∈ s.blocks.take 4 := by
          refine List.mem_iff_getElem?.mpr ⟨i, ?_⟩
          rw [List.getElem?_take]
          simp [hi, hob]
        have hobres := hres ob hobmem
        rw [← hbeq, hobres] at hbs
        simp at hbs
      · rw [if_neg (by omega)] at hbeq
        rw [← hbeq] at hbs
        simp at hbs
  have hgood0 : ∀ p ∈ s.files,
      p.1 ∉ (sortByFirstBlock (fileBlocksOf s)).map Prod.fst →
      ∀ x ∈ p.2.blocks, x < 4 ∧ ∃ b : DiskBlock, (clearFrom 0 s.blocks)[x]? = some b ∧
        b.status = BlockStatus.used ∧ b.fileId = some p.1 := by
    intro p hp hnot x hx
    exfalso
    by_cases hd : p.2.isDirectory = true
    · have := hdir p hp hd
      rw [this] at hx
      simp at hx
    · have hd' : p.2.isDirectory = false := by simpa using hd
      have hbne := List.ne_nil_of_mem hx
      have hmemF : (p.2.id, p.2.blocks) ∈ fileBlocksOf s := hFmem' p hp hd' hbne
      apply hnot
      have hkm : p.2.id ∈ (fileBlocksOf s).map Prod.fst :=
        List.mem_map_of_mem Prod.fst hmemF
      rw [hidf p hp] at hkm
      exact ((hperm.map Prod.fst).mem_iff).mpr hkm
  have hSf : ∀ fb ∈ sortByFirstBlock (fileBlocksOf s),
      (∃ p ∈ s.files, p.1 = fb.1) ∧
      ∀ x ∈ fb.2, (snapshotOf s.blocks x).status = BlockStatus.used ∧
        (snapshotOf s.blocks x).fileId = some fb.1 := by
    intro fb hfb
    have hfb' : fb ∈ fileBlocksOf s := (hperm.mem_iff).mp hfb
    obtain ⟨p, hp, _, _, hfbe⟩ := hFmem fb hfb'
    subst hfbe
    refine ⟨⟨p, hp, (hidf p hp).symm⟩, ?_⟩
    intro x hx
    obtain ⟨hs1, hs2, _, _⟩ := hsnapfact p hp x hx
    exact ⟨hs1, hs2⟩
  have main := defragAux_spec (snapshotOf s.blocks) (sortByFirstBlock (fileBlocksOf s))
    { blocks := clearFrom 0 s.blocks
      files := s.files
      nextFree := 4
      moves := [] }
    (Nat.le_refl 4)
    (by
      show sumLen (sortByFirstBlock (fileBlocksOf s)) ≤ (clearFrom 0 s.blocks).length - 4
      rw [clearFrom_length]
      exact hcap)
    hids0' hcler0 hkeysS hSf hgood0 hused0 hidf
  obtain ⟨hA, hB, hC, hD⟩ := main
  have hs'b : (defragment s).2.blocks =
      (defragAux (snapshotOf s.blocks) (sortByFirstBlock (fileBlocksOf s))
        { blocks := clearFrom 0 s.blocks
          files := s.files
          nextFree := 4
          moves := [] }).blocks := rfl
  have hs'f : (defragment s).2.files =
      (defragAux (snapshotOf s.blocks) (sortByFirstBlock (fileBlocksOf s))
        { blocks := clearFrom 0 s.blocks
          files := s.files
          nextFree := 4
          moves := [] }).files := rfl
  have h1 : (runFsck (defragment s).2).orphanBlocks = [] := by
    show (((defragment s).2.blocks.filter (fun b =>
        b.status == BlockStatus.used &&
          !((defragment s).2.files.any (fun p => p.2.blocks.contains b.id)))).map (·.id)) = []
    have hfil : (defragment s).2.blocks.filter (fun b =>
        b.status == BlockStatus.used &&
          !((defragment s).2.files.any (fun p => p.2.blocks.contains b.id))) = [] := by
      rw [List.filter_eq_nil_iff]
      intro b hbmem hcontra
      rw [Bool.and_eq_true] at hcontra
      obtain ⟨hbu, hnref⟩ := hcontra
      obtain ⟨i, hib⟩ := List.mem_iff_getElem?.mp hbmem
      have hib' := hib
      rw [hs'b] at hib'
      obtain ⟨p, hp, hmem⟩ := hB i b hib' (beq_iff_eq.mp hbu)
      have hid := hD i b hib'
      have hany : (defragment s).2.files.any (fun p => p.2.blocks.contains b.id) = true := by
        rw [hs'f]
        refine List.any_eq_true.mpr ⟨p, hp, List.elem_eq_true_of_mem ?_⟩
        rw [hid]
        exact hmem
      rw [hany] at hnref
      simp at hnref
    rw [hfil]
    rfl
  have h2 : (runFsck (defragment s).2).missingBlocks = [] := by
    show ((referencedList (defragment s).2).filter (fun x =>
        match (defragment s).2.blocks[x]? with
        | some b => b.status == BlockStatus.free
        | none => false)) = []
    rw [List.filter_eq_nil_iff]
    intro x hxr hcontra
    obtain ⟨p, hp, hx⟩ := referencedList_spec hxr
    have hp' := hp
    rw [hs'f] at hp'
    obtain ⟨b, hb, hbs, hbo⟩ := hA p hp' x hx
    rw [← hs'b] at hb
    simp [hb, hbs] at hcontra
  have h3 : (runFsck (defragment s).2).inconsistentFiles = [] := by
    show ((defragment s).2.files.flatMap (fun p =>
        (p.2.blocks.filter (fsckBlockBad (defragment s).2 p.2)).map
          (fun _ => p.2.id))).foldl insertDistinct [] = []
    have hfm : (defragment s).2.files.flatMap (fun p =>
        (p.2.blocks.filter (fsckBlockBad (defragment s).2 p.2)).map
          (fun _ => p.2.id)) = [] := by
      rw [List.flatMap_eq_nil_iff]
      intro p hp
      have hp' := hp
      rw [hs'f] at hp'
      have hfil : p.2.blocks.filter (fsckBlockBad (defragment s).2 p.2) = [] := by
        rw [List.filter_eq_nil_iff]
        intro x hx hbad
        obtain ⟨b, hb, hbs, hbo⟩ := hA p hp' x hx
        rw [← hs'b] at hb
        have hpid : p.2.id = p.1 := hC p hp'
        unfold fsckBlockBad at hbad
        simp [hb, hbs, hbo, hpid] at hbad
      rw [hfil]
      rfl
    rw [hfm]
    rfl
  have hr : runFsck (defragment s).2 =
      { orphanBlocks := (runFsck (defragment s).2).orphanBlocks
        missingBlocks := (runFsck (defragment s).2).missingBlocks
        inconsistentFiles := (runFsck (defragment s).2).inconsistentFiles } := rfl
  rw [hr, h1, h2, h3]
theorem c6_defragment_fsck_clean_witness :
    ((∀ b ∈ exFileState.blocks, b.status ≠ BlockStatus.corrupted) ∧
     (∀ i ∈ List.range exFileState.blocks.length,
        exFileState.blocks[i]?.map DiskBlock.id = some i) ∧
     ((exFileState.files.map Prod.fst).Nodup) ∧
     (∀ p ∈ exFileState.files, p.2.id = p.1) ∧
     (∀ p ∈ exFileState.files, p.2.isDirectory = true → p.2.blocks = []) ∧
     (∀ p ∈ exFileState.files, p.2.blocks.Nodup) ∧
     (∀ b ∈ exFileState.blocks.take 4, b.status = BlockStatus.reserved) ∧
     refOk exFileState = true) ∧
    runFsck (defragment exFileState).2 = ⟨[], [], []⟩ :=
  ⟨⟨by decide, by decide, by decide, by decide, by decide, by decide, by decide, by decide⟩,
   c6_defragment_fsck_clean exFileState (by decide) (by decide) (by decide) (by decide)
     (by decide) (by decide) (by decide) (by decide)⟩
end FileSys
